import Mathlib

set_option maxRecDepth 8000

/- Shallow embedding of the beego/mux URL router core (src/tree.go).
   Strings are modelled as lists of characters (`Str`); Go byte indices and
   rune indices coincide on the ASCII inputs this development evaluates.
   Node pointers are modelled as indices into an arena list, so pointer
   identity becomes index equality. -/

abbrev Str := List Char

def str (s : String) : Str := s.data

/-- Go strings.Contains(s, "::"). -/
def hasDColon : Str → Bool
  | c :: c2 :: rest => (c = ':' && c2 = ':') || hasDColon (c2 :: rest)
  | _ => false

/-- Go strings.Replace(s, "::", ":", -1): left-to-right, non-overlapping. -/
def replaceDColon : Str → Str
  | c :: c2 :: rest =>
    if c = ':' ∧ c2 = ':' then ':' :: replaceDColon rest
    else c :: replaceDColon (c2 :: rest)
  | s => s

/-- Go strings.Contains(s, "//"). -/
def hasDSlash : Str → Bool
  | c :: c2 :: rest => (c = '/' && c2 = '/') || hasDSlash (c2 :: rest)
  | _ => false

/-- Go strings.Replace(path, "//", "/", -1): left-to-right, non-overlapping. -/
def replaceDSlash : Str → Str
  | c :: c2 :: rest =>
    if c = '/' ∧ c2 = '/' then '/' :: replaceDSlash rest
    else c :: replaceDSlash (c2 :: rest)
  | s => s

/-- pathClean from tree.go: collapse doubled separators in one replace pass. -/
def pathCleanF (path : Str) : Str :=
  if hasDSlash path then replaceDSlash path else path

/-- Go strings.TrimPrefix(s, "/"): drop one leading separator when present. -/
def trimLeadSlash : Str → Str
  | '/' :: rest => rest
  | s => s

/-- Go strings.Split(s, "/"): never empty, "" splits to [""]. -/
def splitSlash : Str → List Str
  | [] => [[]]
  | c :: rest =>
    match splitSlash rest with
    | h :: tl => if c = '/' then [] :: h :: tl else (c :: h) :: tl
    | [] => [[c]]

/-- Go strings.Join(parts, "/"). -/
def joinSlash (parts : List Str) : Str := List.intercalate ['/'] parts

/-- Go strings.HasSuffix. -/
def hasSuffixF (s suffixStr : Str) : Bool := suffixStr.isSuffixOf s

/-- Go strings.TrimSuffix. -/
def trimSuffixF (s suffixStr : Str) : Str :=
  if hasSuffixF s suffixStr then s.take (s.length - suffixStr.length) else s

/-- Go regexp character class [0-9]. -/
def isDigitC (c : Char) : Bool := '0' ≤ c && c ≤ '9'

/-- Go regexp character class \w, which RE2 defines as [0-9A-Za-z_]. -/
def isWordC (c : Char) : Bool :=
  isDigitC c || ('a' ≤ c && c ≤ 'z') || ('A' ≤ c && c ≤ 'Z') || c = '_'

/-- Source text of wildRegexp from tree.go. -/
def wildSrc : Str := str "(.+)"

/-- Source text of extWildRegexp from tree.go; the middle dot is unescaped
and therefore matches any character except a newline. -/
def extWildSrc : Str := str "([^.]+).(.+)"

/-- Source text of the :int shorthand expression. -/
def intSrc : Str := str "([0-9]+)"

/-- Source text of the :string shorthand expression. -/
def stringSrc : Str := str "([\\w]+)"

/-- Source text of the :string shorthand expression for optional segments. -/
def stringOptSrc : Str := str "([\\w]*)"

/-- Leftmost-first search for a single-class expression (C+): Go finds the
leftmost character in the class and captures the greedy run from there. -/
def classFind (p : Char → Bool) : Str → Option Str
  | [] => none
  | c :: rest =>
    if p c then some (List.takeWhile p (c :: rest)) else classFind p rest

/-- Backtracking choice of the first-group length for ([^.]+).(.+) once a
start position is fixed: Go tries the greedy length first and shrinks it.
The candidate length k needs the char at index k (matched by the unescaped
dot) and at least one char after it to exist and to be non-newline; the
out-of-range default makes getD encode the bounds checks. -/
def extWildK (l : Str) : Nat → Option Nat
  | 0 => none
  | k + 1 =>
    if l.getD (k + 1) '\n' ≠ '\n' ∧ l.getD (k + 2) '\n' ≠ '\n' then some (k + 1)
    else extWildK l k

/-- ([^.]+).(.+) anchored at the current position (first char not a dot):
group 1 is the chosen non-dot run, group 2 the greedy non-newline run after
the dot-any character; the head of the triple is the full match text. -/
def extWildAt (l : Str) : Option (Str × Str × Str) :=
  match extWildK l (l.takeWhile (fun c => c ≠ '.')).length with
  | none => none
  | some k =>
    let g2 := List.takeWhile (fun c => c ≠ '\n') (l.drop (k + 1))
    some (l.take (k + 1) ++ g2, l.take k, g2)

/-- Leftmost-first search for ([^.]+).(.+): scan start positions left to
right, skipping chars that cannot begin the first group. -/
def extWildFind : Str → Option (Str × Str × Str)
  | [] => none
  | c :: rest =>
    if c ≠ '.' then
      match extWildAt (c :: rest) with
      | some r => some r
      | none => extWildFind rest
    else extWildFind rest

/-- MatchString semantics (unanchored substring search) for the finitely
many Go regular expressions this development evaluates, keyed by source
text. Other expression texts conservatively never match; no claim below
depends on their behaviour. -/
def reMatch (src : Str) (s : Str) : Bool :=
  if src = wildSrc then (classFind (fun c => c ≠ '\n') s).isSome
  else if src = extWildSrc then (extWildFind s).isSome
  else if src = intSrc then (classFind isDigitC s).isSome
  else if src = stringSrc then (classFind isWordC s).isSome
  else if src = stringOptSrc then true
  else if src = [] then true
  else false

/-- FindStringSubmatch semantics for the same expressions: none models Go's
nil slice, otherwise the head is the full match followed by one entry per
capture group. -/
def reFind (src : Str) (s : Str) : Option (List Str) :=
  if src = wildSrc then (classFind (fun c => c ≠ '\n') s).map (fun g => [g, g])
  else if src = extWildSrc then (extWildFind s).map (fun r => [r.1, r.2.1, r.2.2])
  else if src = intSrc then (classFind isDigitC s).map (fun g => [g, g])
  else if src = stringSrc then (classFind isWordC s).map (fun g => [g, g])
  else if src = stringOptSrc then some [s.takeWhile isWordC, s.takeWhile isWordC]
  else if src = [] then some [[]]
  else none

/-- Scanner state of regexpSegment from tree.go. -/
structure RSState where
  params : List Str
  expr : Str
  param : Str
  start : Bool
  startexp : Bool
  optional : Bool
deriving Repr, DecidableEq

/-- The param-name close step inside the scanner: when a parameter name is
being read and a non-word char arrives, a nonempty name is flushed to
params (Go leaves start untouched when the pending name is empty). -/
def rsCloseParam (st : RSState) : RSState :=
  if st.param ≠ [] then
    { st with params := st.params ++ [':' :: st.param], param := [], start := false }
  else st

/-- The main character switch of the scanner (the code after the param-name
block in regexpSegment); nxt is the one-char lookahead used by the leading
?-marker test. -/
def rsSwitch (v : Char) (nxt : Option Char) (st : RSState) : RSState :=
  if st.startexp ∧ v ≠ ')' then { st with expr := st.expr ++ [v] }
  else if v = ':' then { st with param := [], start := true }
  else if v = '(' then { st with startexp := true, start := false, expr := st.expr ++ ['('] }
  else if v = ')' then { st with startexp := false, expr := st.expr ++ [')'], param := [] }
  else if v = '?' ∧ nxt = some ':' then { st with optional := true }
  else
    { st with expr := (if st.expr = [] ∧ st.params ≠ [] then wildSrc else st.expr) ++ [v] }

/-- The scanner loop of regexpSegment, with Go's skipnum counter made an
explicit argument: the :int and :string shorthand lookaheads (byte-slice
comparisons in Go) appear as pattern matches on the unconsumed tail. -/
def rsLoop : Str → Nat → RSState → RSState
  | [], _, st => st
  | _ :: rest, skip + 1, st => rsLoop rest skip st
  | v :: rest, 0, st =>
    if st.start then
      match v, rest with
      | ':', 'i' :: 'n' :: 't' :: _ =>
        rsLoop rest 3 { st with expr := st.expr ++ intSrc,
                                params := st.params ++ [':' :: st.param],
                                start := false, startexp := false, param := [] }
      | ':', 's' :: 't' :: 'r' :: 'i' :: 'n' :: 'g' :: _ =>
        rsLoop rest 6 { st with expr := st.expr ++ (if st.optional then stringOptSrc else stringSrc),
                                params := st.params ++ [':' :: st.param],
                                start := false, startexp := false, param := [] }
      | _, _ =>
        if isWordC v then rsLoop rest 0 { st with param := st.param ++ [v] }
        else rsLoop rest 0 (rsSwitch v rest.head? (rsCloseParam st))
    else rsLoop rest 0 (rsSwitch v rest.head? st)

/-- regexpSegment from tree.go: parameter names, the regular-expression
source text, and the optional marker for one segment. Compiling the
expression and validating the names (both panic on failure in Go) are not
modelled: every expression this development builds compiles, and produced
names consist of word characters by construction. -/
def regexpSegment (seg : Str) : List Str × Str × Bool :=
  let st := rsLoop seg 0
    { params := [], expr := [], param := [], start := false, startexp := false, optional := false }
  let params := if st.param ≠ [] then st.params ++ [':' :: st.param] else st.params
  let expr := if st.param ≠ [] ∧ st.expr ≠ [] then st.expr ++ wildSrc else st.expr
  (params, expr, st.optional)

example : regexpSegment (str "admin") = ([], str "admin", false) := by decide
example : regexpSegment (str ":id") = ([str ":id"], [], false) := by decide
example : regexpSegment (str "?:id") = ([str ":id"], [], true) := by decide
example : regexpSegment (str ":id:int") = ([str ":id"], str "([0-9]+)", false) := by decide
example : regexpSegment (str ":name:string") = ([str ":name"], str "([\\w]+)", false) := by decide
example : regexpSegment (str ":id([0-9]+)") = ([str ":id"], str "([0-9]+)", false) := by decide
example : regexpSegment (str ":id([0-9]+)_:name") =
    ([str ":id", str ":name"], str "([0-9]+)_(.+)", false) := by decide
example : regexpSegment (str ":id(.+)_cms.html") = ([str ":id"], str "(.+)_cms.html", false) := by
  decide
example : regexpSegment (str "cms_:id(.+)_:page(.+).html") =
    ([str ":id", str ":page"], str "cms_(.+)_(.+).html", false) := by decide
example : regexpSegment (str ":app(a|b|c)") = ([str ":app"], str "(a|b|c)", false) := by decide
example : regexpSegment (str ":app\\((a|b|c)\\)") =
    ([str ":app"], str "(.+)\\((a|b|c)\\)", false) := by decide
example : regexpSegment (str "?:auth:int") = ([str ":auth"], str "([0-9]+)", true) := by decide
example : regexpSegment (str ":a:b") = ([str ":a", str ":b"], [], false) := by decide

/-- Node from tree.go. Child pointers are arena indices. The handlers,
allow and namedRoutes fields are omitted: no claim below reads them. The
regex field holds the source text of the compiled expression, none
modelling Go's nil pointer. -/
structure Node where
  name : List Str := []
  pattern : Str := []
  segment : Str := []
  endpoint : Bool := false
  wildcard : Bool := false
  optional : Bool := false
  parent : Option Nat := none
  segChildren : List Nat := []
  optionChildren : List Nat := []
  varyChildren : List Nat := []
  children : List (Str × Nat) := []
  regex : Option Str := none
deriving Repr, DecidableEq, Inhabited

/-- Trie from tree.go: the options plus the node arena; index 0 is root. -/
structure Trie where
  caseSensitive : Bool
  pathClean : Bool
  strictSlash : Bool
  useEncodedPath : Bool
  nodes : List Node
deriving Repr, DecidableEq, Inhabited

/-- Dereference an arena index (Go pointer dereference). -/
def Trie.node (t : Trie) (i : Nat) : Node := t.nodes.getD i default

/-- Write back one node (Go mutation through a pointer). -/
def Trie.setNode (t : Trie) (i : Nat) (n : Node) : Trie :=
  { t with nodes := t.nodes.set i n }

/-- NewTrie from tree.go with explicit option values. -/
def NewTrie (caseSensitive pathClean strictSlash useEncodedPath : Bool) : Trie :=
  { caseSensitive := caseSensitive, pathClean := pathClean, strictSlash := strictSlash,
    useEncodedPath := useEncodedPath, nodes := [{ parent := none }] }

/-- Lookup in the static-children map (Go map indexing). -/
def lookupA (l : List (Str × Nat)) (k : Str) : Option Nat :=
  (l.find? (fun p => p.1 = k)).map (fun p => p.2)

/-- Insert into the static-children map (Go map assignment). -/
def insertA (l : List (Str × Nat)) (k : Str) (v : Nat) : List (Str × Nat) :=
  if (l.find? (fun p => p.1 = k)).isSome then
    l.map (fun p => if p.1 = k then (k, v) else p)
  else l ++ [(k, v)]

/-- The key normalisation at the top of getChild: collapse doubled colons. -/
def normKey (key : Str) : Str := if hasDColon key then replaceDColon key else key

/-- getChild from tree.go: normalise a doubled-colon key, then exact static
map lookup followed by raw-segment-text scans of the three child lists. -/
def getChild (t : Trie) (nid : Nat) (key : Str) : Option Nat :=
  let key := normKey key
  let n := t.node nid
  match lookupA n.children key with
  | some c => some c
  | none =>
    match n.segChildren.find? (fun c => (t.node c).segment = key) with
    | some c => some c
    | none =>
      match n.optionChildren.find? (fun c => (t.node c).segment = key) with
      | some c => some c
      | none => n.varyChildren.find? (fun c => (t.node c).segment = key)

/-- paramRegexp from tree.go: whole-segment match of colon-then-word-chars. -/
def isParamSeg : Str → Bool
  | [] => false
  | c :: rest => c = ':' && !rest.isEmpty && rest.all isWordC

/-- optionalParamRegexp from tree.go: whole-segment match of
question-mark, colon, then word chars. -/
def isOptionalParamSeg : Str → Bool
  | c :: c2 :: rest => c = '?' && c2 = ':' && !rest.isEmpty && rest.all isWordC
  | _ => false

/-- Append a freshly created node to the arena. -/
def addNode (t : Trie) (n : Node) : Trie := { t with nodes := t.nodes ++ [n] }

/-- Update the parent node in place (Go appends to the parent's child
collections through the pointer). -/
def modParent (t : Trie) (p : Nat) (f : Node → Node) : Trie := t.setNode p (f (t.node p))

/-- parseSegment from tree.go: reuse an existing child carrying the same
raw segment text, otherwise create a node, classify it, and link it into
the right child collection of the parent. A new node's index is the arena
size. -/
def parseSegment (t : Trie) (parentId : Nat) (segment : Str) : Trie × Nat :=
  match getChild t parentId segment with
  | some nid => (t, nid)
  | none =>
    let nid := t.nodes.length
    let base : Node := { segment := segment, parent := some parentId }
    if segment = [] then
      (modParent (addNode t base) parentId
        (fun pn => { pn with children := insertA pn.children segment nid }), nid)
    else if hasDColon segment then
      (modParent (addNode t base) parentId
        (fun pn => { pn with children := insertA pn.children (replaceDColon segment) nid }), nid)
    else if segment = str "*" then
      let n : Node := { base with wildcard := true, regex := some wildSrc, name := [str ":splat"] }
      (modParent (addNode t n) parentId
        (fun pn => { pn with varyChildren := pn.varyChildren ++ [nid] }), nid)
    else if segment = str "*.*" then
      let n : Node :=
        { base with wildcard := true, regex := some extWildSrc, name := [str ":path", str ":ext"] }
      (modParent (addNode t n) parentId
        (fun pn => { pn with varyChildren := pn.varyChildren ++ [nid] }), nid)
    else if isOptionalParamSeg segment then
      let n : Node := { base with optional := true, name := [segment.drop 1] }
      (modParent (addNode t n) parentId
        (fun pn =>
          { pn with optionChildren := pn.optionChildren ++ [nid],
                    segChildren := pn.segChildren ++ [nid] }), nid)
    else if isParamSeg segment then
      (modParent (addNode t { base with name := [segment] }) parentId
        (fun pn => { pn with segChildren := pn.segChildren ++ [nid] }), nid)
    else if segment.contains ':' then
      let r := regexpSegment segment
      let n : Node := { base with name := r.1, regex := some r.2.1, optional := r.2.2 }
      let newOC := fun (pn : Node) => if r.2.2 then pn.optionChildren ++ [nid] else pn.optionChildren
      (modParent (addNode t n) parentId
        (fun pn =>
          { pn with optionChildren := newOC pn,
                    varyChildren := pn.varyChildren ++ [nid] }), nid)
    else
      (modParent (addNode t base) parentId
        (fun pn => { pn with children := insertA pn.children segment nid }), nid)

/-- parsePattern from tree.go: walk/create one node per segment and mark
the terminal node as an endpoint. Go indexes segments[0] unconditionally
and Split never yields an empty list, so the empty case is unreachable
from Parse. -/
def parsePattern (t : Trie) (parentId : Nat) : List Str → Trie × Nat
  | [] => (t, parentId)
  | [s] =>
    let r := parseSegment t parentId s
    (r.1.setNode r.2 { r.1.node r.2 with endpoint := true }, r.2)
  | s :: rest =>
    let r := parseSegment t parentId s
    parsePattern r.1 r.2 rest

/-- Result of Parse: Go panics on a doubled separator, modelled as crash. -/
inductive ParseOut where
  | crash
  | ok (t : Trie) (nid : Nat)
deriving Repr, DecidableEq

/-- Parse from tree.go: reject doubled separators, strip one leading
separator, lower-case when case-insensitive, insert, and set the terminal
node's pattern only when still empty. -/
def Trie.Parse (t : Trie) (pattern : Str) : ParseOut :=
  if hasDSlash pattern then ParseOut.crash
  else
    let p := trimLeadSlash pattern
    let p := if t.caseSensitive then p else p.map Char.toLower
    let r := parsePattern t 0 (splitSlash p)
    if (r.1.node r.2).pattern = [] then
      ParseOut.ok (r.1.setNode r.2 { r.1.node r.2 with pattern := pattern }) r.2
    else ParseOut.ok r.1 r.2

/-- Register a pattern, keeping only the updated trie (test helper shape:
tr.Parse(rule)). Crashing patterns leave the trie unchanged; every pattern
this development registers is crash-free. -/
def reg (t : Trie) (pattern : String) : Trie :=
  match t.Parse (str pattern) with
  | ParseOut.ok t2 _ => t2
  | ParseOut.crash => t

/-- The node index a registration returns. -/
def regId (t : Trie) (pattern : String) : Nat :=
  match t.Parse (str pattern) with
  | ParseOut.ok _ nid => nid
  | ParseOut.crash => 0

/-- A trie with the options the repository's tests use:
NewTrie(Options{CaseSensitive: true}). -/
def testTrie : Trie := NewTrie true false false false

example : regId testTrie "/abc/99" = 2 := by decide
example : (reg testTrie "/abc/99").node 2 =
    { segment := str "99", pattern := str "/abc/99", endpoint := true, parent := some 1 } := by
  decide
example : regId (reg testTrie "/abc/99") "/abc/:id" = 3 := by decide
example : ((reg testTrie "/abc/99").node 1).children = [(str "99", 2)] := by decide
example : ((reg (reg testTrie "/abc/99") "/abc/:id").node 1).segChildren = [3] := by decide

/-- Go map read on the Params map. -/
def getParam (ps : List (Str × Str)) (k : Str) : Option Str :=
  (ps.find? (fun p => p.1 = k)).map (fun p => p.2)

/-- Go map assignment on the Params map (replace or append; Go maps are
unordered, lookups below only use getParam). -/
def setParam (ps : List (Str × Str)) (k v : Str) : List (Str × Str) :=
  if (ps.find? (fun p => p.1 = k)).isSome then
    ps.map (fun p => if p.1 = k then (k, v) else p)
  else ps ++ [(k, v)]

/-- matchNode from tree.go: exact static lookup first, then segment
children in registration order (skipping a candidate that has no children
of any kind while path remains beyond this segment, and one whose
expression rejects the segment), then vary children in registration order
gated by their expressions. -/
def matchNode (t : Trie) (parentId : Nat) (segment path : Str) : Option Nat :=
  match getChild t parentId segment with
  | some c => some c
  | none =>
    let pn := t.node parentId
    match pn.segChildren.find? (fun cid =>
        let c := t.node cid
        (!(!path.isEmpty && c.children.isEmpty && c.varyChildren.isEmpty &&
            c.segChildren.isEmpty && c.optionChildren.isEmpty)) &&
        (match c.regex with
         | none => true
         | some r => reMatch r segment)) with
    | some c => some c
    | none =>
      pn.varyChildren.find? (fun cid =>
        match (t.node cid).regex with
        | none => true
        | some r => reMatch r segment)

/-- allowSuffixExt from tree.go: the initial suffix-extension registry. -/
def allowSuffixExt : List Str := [str ".json", str ".xml", str ".html"]

/-- The suffix-extension fallback loop inside Match: the first registered
extension that is a suffix of the final segment and whose stripped segment
resolves a node wins. -/
def tryExts (t : Trie) (parentId : Nat) (segment path : Str) : List Str → Option (Str × Nat)
  | [] => none
  | ext :: rest =>
    if hasSuffixF segment ext then
      match matchNode t parentId (trimSuffixF segment ext) path with
      | some n => some (ext, n)
      | none => tryExts t parentId segment path rest
    else tryExts t parentId segment path rest

/-- Result of the inner wildcard loop of Match. -/
inductive SplatRes where
  | cont (n : Nat) (delta : Nat) (starValue : List Str)
  | fin (starValue : List Str)
deriving Repr, DecidableEq

/-- The inner wildcard loop of Match: grow the consumed span one segment
at a time, after each growth probing whether the next segment resolves a
child of the splat node. delta accumulates Go's index updates
i = i + 1 + len(segs[0]). Go would panic slicing an empty segs; Split
never produces one, so that shape just returns the accumulator. -/
def splatLoop (t : Trie) (splatId : Nat) (delta : Nat) (starValue : List Str) :
    List Str → SplatRes
  | [] => SplatRes.fin starValue
  | [s] => SplatRes.fin (starValue ++ [s])
  | s :: s2 :: rest =>
    let sv := starValue ++ [s]
    let d := delta + 1 + s2.length
    match matchNode t splatId s2 (joinSlash (s2 :: rest)) with
    | some n => SplatRes.cont n d sv
    | none => splatLoop t splatId d sv (s2 :: rest)

/-- Matched from tree.go; path is the advisory redirect target. -/
structure Matched where
  node : Option Nat := none
  params : List (Str × Str) := []
  path : Str := []
deriving Repr, DecidableEq, Inhabited

/-- Outcome of Match: fail models Go returning a non-nil error (the
message text is immaterial here), crash models a Go runtime panic (index
out of range / nil dereference), ok carries the Matched value. -/
inductive MatchOut where
  | fail
  | crash
  | ok (m : Matched)
deriving Repr, DecidableEq

/-- Go's binding loop for i, name := range names with values[i+1]: none
when an index is out of range, which panics in Go. The call sites pass
values with the head (full match) already dropped. -/
def bindNames (ps : List (Str × Str)) : List Str → List Str → Option (List (Str × Str))
  | [], _ => some ps
  | n :: ns, vtail =>
    match vtail with
    | [] => none
    | v :: vrest => bindNames (setParam ps n v) ns vrest

/-- The switch after the matching loop of Match resolves the node reached
after consuming the whole path: an endpoint matches; otherwise an
empty-keyed static child proposes a slash-addition redirect; otherwise the
first registered optional child is selected; otherwise no match. -/
def matchFinish (t : Trie) (parentId : Nat) (params : List (Str × Str)) (rpath path : Str) :
    MatchOut :=
  let p := t.node parentId
  if p.endpoint then MatchOut.ok { node := some parentId, params := params, path := rpath }
  else if (getChild t parentId []).isSome then
    MatchOut.ok { node := none, params := params, path := path ++ ['/'] }
  else
    match p.optionChildren with
    | c :: _ => MatchOut.ok { node := some c, params := params, path := rpath }
    | [] => MatchOut.ok { node := none, params := params, path := rpath }

/-- Verdict of processing one matched node inside the loop of Match (the
ParentNode section of tree.go): either the loop continues at the given
state (Go continue / goto END), or the function is done (Go break into
the final switch, an error return, or a panic). -/
inductive StepOut where
  | next (i start parentId : Nat) (params : List (Str × Str)) (rpath : Str)
  | ret (o : MatchOut)
deriving Repr, DecidableEq

/-- The ParentNode section of Match from tree.go, as a pure verdict: bind
the matched node's captures and report where the loop goes next. i and
start are Go's byte indices at the current boundary; rp is the redirect
accumulator. -/
def matchStepF (t : Trie) (path : Str) (pend i start nid : Nat) (ps : List (Str × Str))
    (rp : Str) : StepOut :=
  let segment := (path.drop start).take (i - start)
  let n := t.node nid
  match n.name with
  | [] => StepOut.next (i + 1) (i + 1) nid ps rp
  | n0 :: nrest =>
    if n.wildcard then
      if nrest = [] then
        let segs := splitSlash ((path.drop start).take (pend - start))
        match splatLoop t nid 0 [] segs with
        | SplatRes.cont c delta sv =>
          StepOut.next (i + delta + 1) (start + (joinSlash sv).length) c
            (setParam ps n0 (joinSlash sv)) rp
        | SplatRes.fin sv =>
          StepOut.ret (matchFinish t nid (setParam ps n0 (joinSlash sv)) rp path)
      else
        match n.regex with
        | none => StepOut.ret MatchOut.crash
        | some r =>
          match reFind r ((path.drop start).take (pend - start)) with
          | none => StepOut.ret MatchOut.fail
          | some values =>
            if values.length ≠ n.name.length + 1 then StepOut.ret MatchOut.fail
            else
              match bindNames ps n.name (values.drop 1) with
              | some ps2 => StepOut.ret (matchFinish t nid ps2 rp path)
              | none => StepOut.ret MatchOut.crash
    else
      match n.regex with
      | none => StepOut.next (i + 1) (i + 1) nid (setParam ps n0 segment) rp
      | some r =>
        match reFind r segment with
        | none => StepOut.ret MatchOut.crash
        | some values =>
          match bindNames ps n.name (values.drop 1) with
          | some ps2 => StepOut.next (i + 1) (i + 1) nid ps2 rp
          | none => StepOut.ret MatchOut.crash

/-- The main loop of Match from tree.go over explicit indices: i scans for
segment boundaries, start marks the current segment begin, parentId is the
current node; params and rpath accumulate the Params and redirect Path of
the Matched under construction. fuel bounds the recursion so the
definition stays structurally recursive and computable: every iteration
strictly increases i and the loop stops once i exceeds pend, so the
pend + 2 units Match supplies always suffice, and the fuel-exhausted
sentinel is unreachable. -/
def matchLoop (t : Trie) (path : Str) (pend : Nat) :
    Nat → Nat → Nat → Nat → List (Str × Str) → Str → MatchOut
  | 0, _, _, _, _, _ => MatchOut.ok default
  | fuel + 1, i, start, parentId, params, rpath =>
    if i ≤ pend then
      if i < pend ∧ path.getD i ' ' ≠ '/' then
        matchLoop t path pend fuel (i + 1) start parentId params rpath
      else
        let segment := (path.drop start).take (i - start)
        let rest := path.drop i
        let rpath2 :=
          if (t.node parentId).endpoint ∧ i = pend ∧ segment = [] then path.take (pend - 1)
          else rpath
        let hit : Option (Nat × List (Str × Str) × Str) :=
          match matchNode t parentId segment rest with
          | some nid => some (nid, params, rpath)
          | none =>
            if i = pend then
              match tryExts t parentId segment rest allowSuffixExt with
              | some er => some (er.2, setParam params (str ":ext") (er.1.drop 1), rpath2)
              | none => none
            else none
        match hit with
        | none => MatchOut.ok { node := none, params := params, path := rpath2 }
        | some (nid, ps, rp) =>
          match matchStepF t path pend i start nid ps rp with
          | StepOut.next i2 start2 p2 ps2 rp2 => matchLoop t path pend fuel i2 start2 p2 ps2 rp2
          | StepOut.ret o => o
    else matchFinish t parentId params rpath path

/-- Match from tree.go: reject a path that is empty or does not begin with
the separator, optionally clean and lower-case it, then run the loop. -/
def Trie.Match (t : Trie) (path : Str) : MatchOut :=
  if path = [] ∨ path.head? ≠ some '/' then MatchOut.fail
  else
    let path := if t.pathClean then pathCleanF path else path
    let path := if t.caseSensitive then path else path.map Char.toLower
    matchLoop t path path.length (path.length + 2) 1 1 0 [] []

/-- Outcome of buildPath: fail models Go returning a non-nil error, crash
a runtime slice-bounds panic, ok the joined path. -/
inductive BuildOut where
  | fail
  | crash
  | ok (s : Str)
deriving Repr, DecidableEq

/-- Outcome of the capture-splice loop inside the regex branch of
buildPath. -/
inductive SpliceRes where
  | crashS
  | failS
  | okS (rules : Str)
deriving Repr, DecidableEq

/-- Capture-splice loop of the regex branch of buildPath: for each declared
name with a supplied value, replace the first parenthesised group of the
current rules text by the value. Go slices rules[:start] with start = -1
when no group remains, a panic (crashS); a missing close paren makes
rules[end+1:] the whole string. A missing value is skipped when the whole
segment is optional and is an error otherwise. -/
def spliceRules (params : List (Str × Str)) (opt : Bool) : Str → List Str → SpliceRes
  | rules, [] => SpliceRes.okS rules
  | rules, n :: ns =>
    match getParam params n with
    | none => if opt then spliceRules params opt rules ns else SpliceRes.failS
    | some v =>
      match rules.findIdx? (fun c => c = '(') with
      | none => SpliceRes.crashS
      | some sIdx =>
        let tail2 :=
          match rules.findIdx? (fun c => c = ')') with
          | none => rules
          | some eIdx => rules.drop (eIdx + 1)
        spliceRules params opt (rules.take sIdx ++ v ++ tail2) ns

/-- buildPath from tree.go: process the pattern's slash-split segments left
to right, collecting produced pieces, and join them with the separator.
The regex branch emits the spliced rules only when a substitution changed
them, and omits the segment otherwise. -/
def buildPathGo (params : List (Str × Str)) : List Str → List Str → BuildOut
  | results, [] => BuildOut.ok (joinSlash results)
  | results, segment :: rest =>
    if hasDColon segment then buildPathGo params (results ++ [replaceDColon segment]) rest
    else if segment = str "*" then
      match getParam params (str ":splat") with
      | some v => buildPathGo params (results ++ [v]) rest
      | none => BuildOut.fail
    else if segment = str "*.*" then
      match getParam params (str ":path") with
      | none => BuildOut.fail
      | some p =>
        match getParam params (str ":ext") with
        | none => BuildOut.fail
        | some e => buildPathGo params (results ++ [p ++ '.' :: e]) rest
    else if isOptionalParamSeg segment then
      match getParam params (segment.drop 1) with
      | none => buildPathGo params results rest
      | some v => buildPathGo params (results ++ [v]) rest
    else if isParamSeg segment then
      match getParam params segment with
      | none => BuildOut.fail
      | some v => buildPathGo params (results ++ [v]) rest
    else if segment.contains ':' then
      let r := regexpSegment segment
      match spliceRules params r.2.2 r.2.1 r.1 with
      | SpliceRes.crashS => BuildOut.crash
      | SpliceRes.failS => BuildOut.fail
      | SpliceRes.okS rules =>
        if rules ≠ r.2.1 then buildPathGo params (results ++ [rules]) rest
        else buildPathGo params results rest
    else buildPathGo params (results ++ [segment]) rest

/-- buildPath entry: empty accumulated results. -/
def buildPath (segments : List Str) (params : List (Str × Str)) : BuildOut :=
  buildPathGo params [] segments

/-- BuildURL from tree.go reduced to its path construction: buildPath over
the slash-split stored pattern of the node. -/
def buildURLPath (t : Trie) (nid : Nat) (params : List (Str × Str)) : BuildOut :=
  buildPath (splitSlash ((t.node nid).pattern)) params

/-- A matched result selected a node. -/
def MatchOut.nodeOf : MatchOut → Option Nat
  | MatchOut.ok m => m.node
  | _ => none

/-- The params of an ok result. -/
def MatchOut.paramsOf : MatchOut → List (Str × Str)
  | MatchOut.ok m => m.params
  | _ => []

/-- The redirect path of an ok result. -/
def MatchOut.pathOf : MatchOut → Str
  | MatchOut.ok m => m.path
  | _ => []

example : (testTrie |> (reg · "/")).Match (str "/") =
    MatchOut.ok { node := some 1, params := [], path := [] } := by decide

example : ((testTrie |> (reg · "/customer/login")).Match (str "/customer/login")).nodeOf =
    some 2 := by decide

example : ((testTrie |> (reg · "/:id")).Match (str "/123")).paramsOf =
    [(str ":id", str "123")] := by decide

example : ((testTrie |> (reg · "/customer/login")).Match (str "/customer/login.json")).paramsOf =
    [(str ":ext", str "json")] := by decide

example : ((testTrie |> (reg · "/topic/?:auth:int")).Match (str "/topic/123")).paramsOf =
    [(str ":auth", str "123")] := by decide

example : ((testTrie |> (reg · "/topic/?:auth:int")).Match (str "/topic")).nodeOf =
    some 2 := by decide

example : ((testTrie |> (reg · "/*")).Match (str "/customer/2009/12/11")).paramsOf =
    [(str ":splat", str "customer/2009/12/11")] := by decide

example : ((testTrie |> (reg · "/aa/*/bb")).Match (str "/aa/2009/bb")).paramsOf =
    [(str ":splat", str "2009")] := by decide

example : ((testTrie |> (reg · "/cc/*/dd")).Match (str "/cc/2009/11/dd")).paramsOf =
    [(str ":splat", str "2009/11")] := by decide

example : ((testTrie |> (reg · "/cc/:id/*")).Match (str "/cc/2009/11/dd")).paramsOf =
    [(str ":id", str "2009"), (str ":splat", str "11/dd")] := by decide

example : ((testTrie |> (reg · "/ee/:year/*/ff")).Match (str "/ee/2009/11/ff")).paramsOf =
    [(str ":year", str "2009"), (str ":splat", str "11")] := by decide

example : ((testTrie |> (reg · "/*.*")).Match (str "/nice/api.json")).paramsOf =
    [(str ":path", str "nice/api"), (str ":ext", str "json")] := by decide

example : ((testTrie |> (reg · "/:name/*.*")).Match (str "/nice/api.json")).paramsOf =
    [(str ":name", str "nice"), (str ":path", str "api"), (str ":ext", str "json")] := by decide

example : ((testTrie |> (reg · "/v1/shop/:id:int")).Match (str "/v1/shop/123")).paramsOf =
    [(str ":id", str "123")] := by decide

example : ((testTrie |> (reg · "/topic/:id:int")).Match (str "/topic/aaa")).nodeOf =
    none := by decide

example : ((testTrie |> (reg · "/abc/?:id:int")).Match (str "/abc/zzz")).nodeOf =
    none := by decide

example : ((testTrie |> (reg · "/api/::/:ID")).Match (str "/api/:/123")).paramsOf =
    [(str ":ID", str "123")] := by decide

example : ((testTrie |> (reg · "/dl/:width:int/:height:int/*.*")).Match
    (str "/dl/48/48/05ac66d9bda00a3acf948c43e306fc9a.jpg")).nodeOf = some 4 := by decide

example : ((testTrie |> (reg · "/dl/:width:int/:height:int/*.*")).Match
    (str "/dl/48/48/05ac66d9bda00a3acf948c43e306fc9a.jpg")).paramsOf =
    [(str ":width", str "48"), (str ":height", str "48"),
     (str ":path", str "05ac66d9bda00a3acf948c43e306fc9a"), (str ":ext", str "jpg")] := by
  decide

example : buildPath (splitSlash (str "/v1/shop/:id/:name"))
    [(str ":id", str "123"), (str ":name", str "nike")] =
    BuildOut.ok (str "/v1/shop/123/nike") := by decide

example : buildPath (splitSlash (str "/aa/*/bb")) [(str ":splat", str "2009")] =
    BuildOut.ok (str "/aa/2009/bb") := by decide

example : buildPath (splitSlash (str "/*.*"))
    [(str ":path", str "nice/api"), (str ":ext", str "json")] =
    BuildOut.ok (str "/nice/api.json") := by decide

example : buildPath (splitSlash (str "/topic/?:auth:int")) [] =
    BuildOut.ok (str "/topic") := by decide

example : buildPath (splitSlash (str "/topic/?:auth:int")) [(str ":auth", str "123")] =
    BuildOut.ok (str "/topic/123") := by decide

example : buildPath (splitSlash (str "/v1/shop/:id([0-9]+)_:name"))
    [(str ":id", str "123"), (str ":name", str "nike")] =
    BuildOut.ok (str "/v1/shop/123_nike") := by decide

example : buildPath (splitSlash (str "/api/::/:ID")) [(str ":ID", str "123")] =
    BuildOut.ok (str "/api/:/123") := by decide

/-- The C1 scenario: static /abc/99 and named /abc/:id compete. -/
def trieC1 : Trie := testTrie |> (reg · "/abc/99") |> (reg · "/abc/:id")

/-- The C1 segment-order scenario: two named children, registration order. -/
def trieC1seg : Trie := testTrie |> (reg · "/x/:a") |> (reg · "/x/:b")

/-- The C1 vary-order scenario: two constrained children, registration
order. -/
def trieC1vary : Trie := testTrie |> (reg · "/y/:m:int") |> (reg · "/y/:n:int")

/-- C1: match priority is exact. The first conjunct is the universal
static-first rule of matchNode: whenever the exact static lookup resolves,
matchNode returns that child. The remaining conjuncts pin the concrete
scenario: with /abc/99 (terminal node 2) and /abc/:id (terminal node 3)
registered, the literal path /abc/99 selects the static node 2 with no
parameters, and /abc/123 selects the named node 3 with :id = "123";
with two Named children the first registered wins, and with two vary
children the first registered wins. -/
theorem c1_match_priority :
    (∀ (t : Trie) (p : Nat) (seg rest : Str) (c : Nat),
      getChild t p seg = some c → matchNode t p seg rest = some c) ∧
    regId testTrie "/abc/99" = 2 ∧
    regId (reg testTrie "/abc/99") "/abc/:id" = 3 ∧
    trieC1.Match (str "/abc/99") = MatchOut.ok ⟨some 2, [], []⟩ ∧
    trieC1.Match (str "/abc/123") = MatchOut.ok ⟨some 3, [(str ":id", str "123")], []⟩ ∧
    regId testTrie "/x/:a" = 2 ∧
    trieC1seg.Match (str "/x/1") = MatchOut.ok ⟨some 2, [(str ":a", str "1")], []⟩ ∧
    regId testTrie "/y/:m:int" = 2 ∧
    trieC1vary.Match (str "/y/5") = MatchOut.ok ⟨some 2, [(str ":m", str "5")], []⟩ := by
  refine ⟨?_, by decide, by decide, by decide, by decide, by decide, by decide, by decide,
    by decide⟩
  intro t p seg rest c h
  unfold matchNode
  rw [h]

/-- C1 witness: the universal static-first conjunct applied at the
concrete trie, where the static child 2 shadows the named child 3. -/
theorem c1_match_priority_witness :
    matchNode trieC1 1 (str "99") [] = some 2 :=
  c1_match_priority.1 trieC1 1 (str "99") [] 2 (by decide)

/-- The C2 wildcard tries. -/
def trieC2a : Trie := testTrie |> (reg · "/aa/*/bb")

def trieC2b : Trie := testTrie |> (reg · "/cc/*/dd")

def trieC2c : Trie := testTrie |> (reg · "/*")

/-- C2: splat resolution is an incremental search. The universal conjunct
states the no-continuation limit case: a splat node with no children of
any kind binds :splat to the entire remainder. The concrete conjuncts pin
the specified behaviour: /aa/*/bb matches /aa/2009/bb with
:splat = "2009" (one growth step), /cc/*/dd matches /cc/2009/11/dd with
:splat = "2009/11" (two growth steps), and /* binds the whole remainder
of /customer/2009/12/11. -/
theorem c2_splat_incremental :
    (∀ (t : Trie) (nid delta : Nat) (sv segs : List Str),
      (t.node nid).children = [] → (t.node nid).segChildren = [] →
      (t.node nid).optionChildren = [] → (t.node nid).varyChildren = [] →
      splatLoop t nid delta sv segs = SplatRes.fin (sv ++ segs)) ∧
    trieC2a.Match (str "/aa/2009/bb") =
      MatchOut.ok ⟨some 3, [(str ":splat", str "2009")], []⟩ ∧
    trieC2b.Match (str "/cc/2009/11/dd") =
      MatchOut.ok ⟨some 3, [(str ":splat", str "2009/11")], []⟩ ∧
    trieC2c.Match (str "/customer/2009/12/11") =
      MatchOut.ok ⟨some 1, [(str ":splat", str "customer/2009/12/11")], []⟩ := by
  refine ⟨?_, by decide, by decide, by decide⟩
  intro t nid delta sv segs h1 h2 h3 h4
  induction segs generalizing delta sv with
  | nil => simp [splatLoop]
  | cons s rest ih =>
    cases rest with
    | nil => simp [splatLoop]
    | cons s2 rest2 =>
      have hmn : matchNode t nid s2 (joinSlash (s2 :: rest2)) = none := by
        unfold matchNode getChild
        simp [h1, h2, h3, h4, lookupA]
      simp only [splatLoop, hmn]
      rw [ih]
      simp

/-- C2 witness: the universal no-continuation conjunct applied at the /*
trie, whose splat node 1 is childless. -/
theorem c2_splat_incremental_witness :
    splatLoop trieC2c 1 0 [] [str "customer", str "2009"] =
      SplatRes.fin [str "customer", str "2009"] :=
  c2_splat_incremental.1 trieC2c 1 0 [] [str "customer", str "2009"]
    (by decide) (by decide) (by decide) (by decide)

/-- The C4 suffix-fallback trie. -/
def trieC4 : Trie := testTrie |> (reg · "/customer/login")

/-- C4: suffix-extension fallback on the final segment. With
/customer/login registered (terminal node 2), each of the three initially
recognized extensions is retried with the suffix stripped, the match
succeeds on node 2 and additionally binds :ext to the suffix text without
the dot. The first conjunct pins the initial registry contents. -/
theorem c4_suffix_fallback :
    allowSuffixExt = [str ".json", str ".xml", str ".html"] ∧
    regId (reg testTrie "/customer") "/customer/login" = 2 ∧
    trieC4.Match (str "/customer/login.json") =
      MatchOut.ok ⟨some 2, [(str ":ext", str "json")], []⟩ ∧
    trieC4.Match (str "/customer/login.xml") =
      MatchOut.ok ⟨some 2, [(str ":ext", str "xml")], []⟩ ∧
    trieC4.Match (str "/customer/login.html") =
      MatchOut.ok ⟨some 2, [(str ":ext", str "html")], []⟩ := by
  exact ⟨by decide, by decide, by decide, by decide, by decide⟩

/-- The C6 optional-parameter trie. -/
def trieC6 : Trie := testTrie |> (reg · "/topic/?:auth:int")

/-- C6: an optional constrained segment is skippable at the end. With
/topic/?:auth:int registered (terminal node 2 hanging off node 1 for
topic), /topic matches: the walk ends on node 1, which is not an endpoint,
and its first registered optional child 2 is selected with no :auth bound;
/topic/123 matches node 2 with :auth = "123"; /topic/xyz yields no match
and no error. -/
theorem c6_optional_skippable :
    regId (reg testTrie "/topic") "/topic/?:auth:int" = 2 ∧
    (trieC6.node 1).endpoint = false ∧
    (trieC6.node 1).optionChildren = [2] ∧
    trieC6.Match (str "/topic") = MatchOut.ok ⟨some 2, [], []⟩ ∧
    trieC6.Match (str "/topic/123") = MatchOut.ok ⟨some 2, [(str ":auth", str "123")], []⟩ ∧
    trieC6.Match (str "/topic/xyz") = MatchOut.ok ⟨none, [], []⟩ := by
  exact ⟨by decide, by decide, by decide, by decide, by decide, by decide⟩

/-- The C10 shorthand-constraint trie. -/
def trieC10 : Trie := testTrie |> (reg · "/abc/:id:int")

/-- C10: the :int shorthand is unanchored. The segment compiler turns
:id:int into the single capture ([0-9]+) with no anchors; the vary-child
test is MatchString, a substring search, so the mixed segment x123y is
accepted; the path /abc/x123y therefore matches the terminal node 2 and
binds :id to the first maximal digit run "123". -/
theorem c10_unanchored_int :
    regexpSegment (str ":id:int") = ([str ":id"], intSrc, false) ∧
    intSrc = str "([0-9]+)" ∧
    reMatch intSrc (str "x123y") = true ∧
    trieC10.Match (str "/abc/x123y") =
      MatchOut.ok ⟨some 2, [(str ":id", str "123")], []⟩ := by
  exact ⟨by decide, by decide, by decide, by decide⟩

/-- The C3 extension-splat trie. -/
def trieC3 : Trie := testTrie |> (reg · "/*.*")

/-- C3 counterexample: the compiled splitter ([^.]+).(.+) splits at the
FIRST dot, not the last. On the remaining path a.b.c (two dots) the code
binds :path = "a" and :ext = "b.c", whereas a last-dot split would give
:path = "a.b" and :ext = "c". -/
theorem c3_counterexample :
    trieC3.Match (str "/a.b.c") =
      MatchOut.ok ⟨some 1, [(str ":path", str "a"), (str ":ext", str "b.c")], []⟩ ∧
    getParam (trieC3.Match (str "/a.b.c")).paramsOf (str ":path") ≠ some (str "a.b") ∧
    getParam (trieC3.Match (str "/a.b.c")).paramsOf (str ":ext") ≠ some (str "c") := by
  exact ⟨by decide, by decide, by decide⟩

/-- takeWhile over a block of satisfying chars followed by a failing one
returns exactly the block. -/
theorem takeWhile_block (p : Char → Bool) (A : Str) (x : Char) (B : Str)
    (hA : ∀ c ∈ A, p c = true) (hx : p x = false) :
    (A ++ x :: B).takeWhile p = A := by
  induction A with
  | nil => simp [List.takeWhile_cons, hx]
  | cons a A2 ih =>
    have ha : p a = true := hA a (by simp)
    simp only [List.cons_append, List.takeWhile_cons, ha, if_true]
    rw [ih (fun c hc => hA c (by simp [hc]))]

/-- getD past a block addresses the rest. -/
theorem getD_past_block (A rest : Str) (j : Nat) (d : Char) :
    (A ++ rest).getD (A.length + j) d = rest.getD j d := by
  induction A with
  | nil => simp
  | cons a A2 ih =>
    have : (a :: A2).length + j = (A2.length + j) + 1 := by simp; omega
    rw [this]
    simpa using ih

/-- The first-group-length search accepts the block length when the two
following characters exist and are non-newline. -/
theorem extWildK_block (L : Str) (n : Nat) (h1 : L.getD (n + 1) '\n' = '.')
    (h2 : L.getD (n + 2) '\n' ≠ '\n') : extWildK L (n + 1) = some (n + 1) := by
  have hcond : L.getD (n + 1) '\n' ≠ '\n' ∧ L.getD (n + 2) '\n' ≠ '\n' :=
    ⟨by rw [h1]; decide, h2⟩
  unfold extWildK
  rw [if_pos hcond]

/-- C3 amended: for every pattern segment *.*, matching applies the
compiled splitter to the entire remaining path (not segment-by-segment)
and splits that path at its FIRST dot: whenever the remaining path is a
nonempty dot-free prefix A, a dot, and a nonempty newline-free suffix B,
the splitter captures :path = A (the text before the first dot) and
:ext = B (the text after the first dot); in particular pattern /*.*
matches /nice/api.json — a remaining path spanning two segments — with
:path = "nice/api" and :ext = "json". -/
theorem c3_first_dot_split :
    (∀ A B : Str, A ≠ [] → (∀ c ∈ A, c ≠ '.') → B ≠ [] → (∀ c ∈ B, c ≠ '\n') →
      extWildFind (A ++ '.' :: B) = some (A ++ '.' :: B, A, B)) ∧
    trieC3.Match (str "/nice/api.json") =
      MatchOut.ok ⟨some 1, [(str ":path", str "nice/api"), (str ":ext", str "json")], []⟩ := by
  refine ⟨?_, by decide⟩
  intro A B hA hAdot hB hBnl
  obtain ⟨a, A2, rfl⟩ : ∃ a A2, A = a :: A2 := by
    cases A with
    | nil => exact absurd rfl hA
    | cons a A2 => exact ⟨a, A2, rfl⟩
  obtain ⟨b, B2, rfl⟩ : ∃ b B2, B = b :: B2 := by
    cases B with
    | nil => exact absurd rfl hB
    | cons b B2 => exact ⟨b, B2, rfl⟩
  have ha : a ≠ '.' := hAdot a (by simp)
  have hb : b ≠ '\n' := hBnl b (by simp)
  have hrun : ((a :: A2) ++ '.' :: b :: B2).takeWhile (fun c => decide (c ≠ '.')) = a :: A2 := by
    refine takeWhile_block _ _ _ _ (fun c hc => by simpa using hAdot c hc) (by simp)
  have hgd1 : ((a :: A2) ++ '.' :: b :: B2).getD (A2.length + 1) '\n' = '.' := by
    have h0 := getD_past_block (a :: A2) ('.' :: b :: B2) 0 '\n'
    rw [List.length_cons, Nat.add_zero] at h0
    exact h0
  have hgd2 : ((a :: A2) ++ '.' :: b :: B2).getD (A2.length + 2) '\n' = b := by
    have h1 := getD_past_block (a :: A2) ('.' :: b :: B2) 1 '\n'
    rw [List.length_cons] at h1
    exact h1
  have hK : extWildK ((a :: A2) ++ '.' :: b :: B2) (A2.length + 1) = some (A2.length + 1) :=
    extWildK_block _ _ hgd1 (by rw [hgd2]; exact hb)
  have heq : (a :: A2) ++ '.' :: b :: B2 = ((a :: A2) ++ ['.']) ++ b :: B2 := by simp
  have hlenD : ((a :: A2) ++ ['.']).length = A2.length + 1 + 1 := by simp
  have htk1 : ((a :: A2) ++ '.' :: b :: B2).take (A2.length + 1 + 1) = (a :: A2) ++ ['.'] := by
    rw [heq, ← hlenD]
    exact List.take_left _ _
  have hdp : ((a :: A2) ++ '.' :: b :: B2).drop (A2.length + 1 + 1) = b :: B2 := by
    rw [heq, ← hlenD]
    exact List.drop_left _ _
  have htk : ((a :: A2) ++ '.' :: b :: B2).take (A2.length + 1) = a :: A2 := by
    have := List.take_left (a :: A2) ('.' :: b :: B2)
    rwa [List.length_cons] at this
  have hg2 : (b :: B2).takeWhile (fun c => decide (c ≠ '\n')) = b :: B2 := by
    refine List.takeWhile_eq_self_iff.mpr (fun c hc => by simpa using hBnl c hc)
  have hAt : extWildAt ((a :: A2) ++ '.' :: b :: B2) =
      some ((a :: A2) ++ '.' :: b :: B2, a :: A2, b :: B2) := by
    unfold extWildAt
    rw [hrun, List.length_cons, hK]
    dsimp only
    rw [hdp, hg2, htk1, htk, heq]
  have hfind : extWildFind ((a :: A2) ++ '.' :: b :: B2) =
      extWildFind (a :: (A2 ++ '.' :: b :: B2)) := by rw [List.cons_append]
  rw [hfind]
  unfold extWildFind
  rw [if_pos ha, ← List.cons_append, hAt]

/-- C3 amended witness: the first-dot law applied at A = "a", B = "b". -/
theorem c3_first_dot_split_witness :
    extWildFind (str "a.b") = some (str "a.b", str "a", str "b") := by
  have h := c3_first_dot_split.1 (str "a") (str "b") (by decide) (by decide) (by decide)
    (by decide)
  simpa using h

/-- The C7 panic trie: a regex-constrained segment. -/
def trieC7 : Trie := testTrie |> (reg · "/:id:int")

/-- C7 counterexample: with /:id:int registered, the well-formed path
/:id:int matches no pattern (the constraint requires a digit), yet Match
neither returns a nil node with nil error nor an error: getChild resolves
the vary child by raw segment-text equality, FindStringSubmatch returns a
nil slice, and indexing values[1] panics (crash). -/
theorem c7_counterexample :
    trieC7.Match (str "/:id:int") = MatchOut.crash ∧
    trieC7.Match (str "/:id:int") ≠ MatchOut.fail := by
  exact ⟨by decide, by decide⟩

/-- C8 counterexample: pattern /:a:b/:name has the Named segment :name
with no entry in the map {:a -> x}, yet BuildURL does not return an error:
the :a:b segment compiles to two capture names and an empty expression, so
splicing the supplied :a value slices rules[:-1] and panics (crash). -/
theorem c8_counterexample :
    isParamSeg (str ":name") = true ∧
    getParam [(str ":a", str "x")] (str ":name") = none ∧
    buildPath (splitSlash (str "/:a:b/:name")) [(str ":a", str "x")] = BuildOut.crash := by
  exact ⟨by decide, by decide, by decide⟩

/-- Word characters are never colons. -/
theorem wordC_ne_colon (c : Char) (h : isWordC c = true) : c ≠ ':' := by
  intro e
  rw [e] at h
  exact absurd h (by decide)

/-- A colon-free string has no doubled colon. -/
theorem hasDColon_no_colon (l : Str) (h : ':' ∉ l) : hasDColon l = false := by
  induction l with
  | nil => rfl
  | cons c rest ih =>
    cases rest with
    | nil => rfl
    | cons c2 rest2 =>
      have hc : c ≠ ':' := fun e => h (by rw [e]; exact List.mem_cons_self _ _)
      have h2 : ':' ∉ c2 :: rest2 := fun hm => h (List.mem_cons_of_mem _ hm)
      simp [hasDColon, hc, ih h2]

/-- All-word strings contain no colon. -/
theorem allWord_no_colon (l : Str) (h : ∀ c ∈ l, isWordC c = true) : ':' ∉ l := by
  intro hm
  exact absurd (h ':' hm) (by decide)

/-- Branch facts for a Named segment inside buildPath and parseSegment:
none of the earlier branch tests fire. -/
theorem paramSeg_facts (s : Str) (h : isParamSeg s = true) :
    hasDColon s = false ∧ s ≠ str "*" ∧ s ≠ str "*.*" ∧ isOptionalParamSeg s = false := by
  cases s with
  | nil => simp [isParamSeg] at h
  | cons c rest =>
    simp only [isParamSeg, Bool.and_eq_true, decide_eq_true_eq] at h
    obtain ⟨⟨hc, hne⟩, hall⟩ := h
    subst hc
    have hwords : ∀ c ∈ rest, isWordC c = true := fun x hx => List.all_eq_true.mp hall x hx
    have hnocolon : ':' ∉ rest := allWord_no_colon rest hwords
    refine ⟨?_, ?_, ?_, ?_⟩
    · cases rest with
      | nil => rfl
      | cons c2 r2 =>
        have hc2 : c2 ≠ ':' := fun e => hnocolon (by rw [e]; exact List.mem_cons_self _ _)
        have hr2 : ':' ∉ c2 :: r2 := hnocolon
        simp [hasDColon, hc2, hasDColon_no_colon _ hr2]
    · intro e
      injection e with e1 _
      exact absurd e1 (by decide)
    · intro e
      injection e with e1 _
      exact absurd e1 (by decide)
    · cases rest with
      | nil => rfl
      | cons c2 r2 => simp [isOptionalParamSeg]

/-- Branch facts for an OptionalNamed segment. -/
theorem optionalSeg_facts (s : Str) (h : isOptionalParamSeg s = true) :
    hasDColon s = false ∧ s ≠ str "*" ∧ s ≠ str "*.*" := by
  cases s with
  | nil => simp [isOptionalParamSeg] at h
  | cons c rest =>
    cases rest with
    | nil => simp [isOptionalParamSeg] at h
    | cons c2 r2 =>
      simp only [isOptionalParamSeg, Bool.and_eq_true, decide_eq_true_eq] at h
      obtain ⟨⟨⟨hc, hc2⟩, hne⟩, hall⟩ := h
      subst hc
      subst hc2
      have hwords : ∀ c ∈ r2, isWordC c = true := fun x hx => List.all_eq_true.mp hall x hx
      have hnocolon : ':' ∉ r2 := allWord_no_colon r2 hwords
      refine ⟨?_, ?_, ?_⟩
      · cases r2 with
        | nil => simp [hasDColon]
        | cons c3 r3 =>
          have hc3 : c3 ≠ ':' := fun e => hnocolon (by rw [e]; exact List.mem_cons_self _ _)
          simp [hasDColon, hc3, hasDColon_no_colon _ hnocolon]
      · intro e
        injection e with e1 _
        exact absurd e1 (by decide)
      · intro e
        injection e with e1 _
        exact absurd e1 (by decide)

/-- A segment whose required parameter is missing from the map in the
sense of the C8 claim: a Named segment, a splat needing :splat, or an
extension splat needing :path and :ext. -/
def requiredMissing (params : List (Str × Str)) (s : Str) : Bool :=
  (s = str "*" && (getParam params (str ":splat")).isNone) ||
  (s = str "*.*" && ((getParam params (str ":path")).isNone ||
    (getParam params (str ":ext")).isNone)) ||
  (isParamSeg s && (getParam params s).isNone)

/-- Every buildPath step either recurses on the remaining segments, fails,
or crashes. -/
theorem buildPathGo_step (params : List (Str × Str)) (results : List Str) (s : Str)
    (rest : List Str) :
    (∃ results2, buildPathGo params results (s :: rest) = buildPathGo params results2 rest) ∨
    buildPathGo params results (s :: rest) = BuildOut.fail ∨
    buildPathGo params results (s :: rest) = BuildOut.crash := by
  simp only [buildPathGo]
  repeat' split
  all_goals first
    | (left; exact ⟨_, rfl⟩)
    | (right; left; rfl)
    | (right; right; rfl)

/-- If some segment has a missing required parameter, buildPathGo never
returns ok, whatever has been accumulated. -/
theorem buildPathGo_missing (params : List (Str × Str)) (segs : List Str)
    (hex : ∃ s ∈ segs, requiredMissing params s = true) (results : List Str) (v : Str) :
    buildPathGo params results segs ≠ BuildOut.ok v := by
  induction segs generalizing results with
  | nil =>
    obtain ⟨s, hs, _⟩ := hex
    simp at hs
  | cons s rest ih =>
    obtain ⟨sbad, hmem, hbad⟩ := hex
    rcases List.mem_cons.mp hmem with heqh | hmem2
    · subst heqh
      simp only [requiredMissing, Bool.or_eq_true, Bool.and_eq_true, decide_eq_true_eq,
        Option.isNone_iff_eq_none] at hbad
      rcases hbad with (⟨he, hsp⟩ | ⟨he, hpe⟩) | ⟨hpar, hmiss⟩
      · rw [he]
        have h1 : hasDColon (str "*") = false := by decide
        simp [buildPathGo, h1, hsp]
      · rw [he]
        have h1 : hasDColon (str "*.*") = false := by decide
        have h2 : str "*.*" ≠ str "*" := by decide
        rcases hpe with hp | hee
        · simp [buildPathGo, h1, h2, hp]
        · cases hp2 : getParam params (str ":path") with
          | none => simp [buildPathGo, h1, h2, hp2]
          | some p => simp [buildPathGo, h1, h2, hp2, hee]
      · obtain ⟨hdc, hstar, hext, hopt⟩ := paramSeg_facts sbad hpar
        simp [buildPathGo, hdc, hstar, hext, hopt, hpar, hmiss]
    · rcases buildPathGo_step params results s rest with ⟨results2, heq⟩ | heq | heq
      · rw [heq]
        exact ih ⟨sbad, hmem2, hbad⟩ results2
      · rw [heq]
        simp
      · rw [heq]
        simp

/-- C8 amended: URL building never produces a path when a required
parameter is missing, and silently drops optional segments. If any Named
segment (or * needing :splat, or *.* needing :path and :ext) has no entry
in the parameter map, buildPath returns an error or — when an earlier
multi-capture segment whose remaining expression text has no capture
group must splice a supplied value — crashes with a slice-bounds panic; it
never returns a built path. An OptionalNamed segment with no entry is
omitted from the output without error. -/
theorem c8_build_missing :
    (∀ (segs : List Str) (params : List (Str × Str)),
      (∃ s ∈ segs, requiredMissing params s = true) →
      ∀ v, buildPath segs params ≠ BuildOut.ok v) ∧
    (∀ (s : Str) (rest : List Str) (params : List (Str × Str)) (results : List Str),
      isOptionalParamSeg s = true → getParam params (s.drop 1) = none →
      buildPathGo params results (s :: rest) = buildPathGo params results rest) := by
  constructor
  · intro segs params hex v
    exact buildPathGo_missing params segs hex [] v
  · intro s rest params results hopt hnone
    obtain ⟨hdc, hstar, hext⟩ := optionalSeg_facts s hopt
    rw [List.drop_one] at hnone
    simp [buildPathGo, hdc, hstar, hext, hopt, hnone]

/-- C8 witness: the missing-key law applied to the single Named segment
:name with an empty map, and the optional-omission law applied to
?:auth with an empty map. -/
theorem c8_build_missing_witness :
    buildPath [str ":name"] [] ≠ BuildOut.ok [] ∧
    buildPathGo [] [] [str "?:auth", str "x"] = buildPathGo [] [] [str "x"] :=
  ⟨c8_build_missing.1 [str ":name"] [] ⟨str ":name", by simp, by decide⟩ [],
   c8_build_missing.2 (str "?:auth") [str "x"] [] [] (by decide) (by decide)⟩

/-- The suffix-fallback loop never fires on the empty final segment: no
registered extension is a suffix of "". -/
theorem tryExts_nil_seg (t : Trie) (p : Nat) (path : Str) :
    tryExts t p [] path allowSuffixExt = none := by
  have h1 : hasSuffixF [] (str ".json") = false := by decide
  have h2 : hasSuffixF [] (str ".xml") = false := by decide
  have h3 : hasSuffixF [] (str ".html") = false := by decide
  simp [allowSuffixExt, tryExts, h1, h2, h3]

/-- The final switch started with an empty redirect accumulator only pairs
a nonempty redirect path with a nil node. -/
theorem matchFinish_nil_rpath (t : Trie) (p : Nat) (ps : List (Str × Str)) (path : Str)
    (m : Matched) (h : matchFinish t p ps [] path = MatchOut.ok m) (hne : m.path ≠ []) :
    m.node = none := by
  simp only [matchFinish] at h
  split at h
  · injection h with h2
    rw [← h2] at hne
    exact absurd rfl hne
  · split at h
    · injection h with h2
      rw [← h2]
    · split at h
      · injection h with h2
        rw [← h2] at hne
        exact absurd rfl hne
      · injection h with h2
        rw [← h2] at hne
        exact absurd rfl hne

/-- A continuing step verdict keeps the redirect accumulator unchanged. -/
theorem matchStepF_next_rpath (t : Trie) (path : Str) (pend i start nid : Nat)
    (ps : List (Str × Str)) (rp : Str) (i2 start2 p2 : Nat) (ps2 : List (Str × Str)) (rp2 : Str)
    (h : matchStepF t path pend i start nid ps rp = StepOut.next i2 start2 p2 ps2 rp2) :
    rp2 = rp := by
  simp only [matchStepF] at h
  repeat' split at h
  all_goals first
    | (injection h with h1 h2 h3 h4 h5; exact h5.symm)
    | (injection h)

/-- A returning step verdict with an empty redirect accumulator satisfies
the C5 invariant. -/
theorem matchStepF_ret_rpath (t : Trie) (path : Str) (pend i start nid : Nat)
    (ps : List (Str × Str)) (o : MatchOut) (m : Matched)
    (h : matchStepF t path pend i start nid ps [] = StepOut.ret o)
    (ho : o = MatchOut.ok m) (hne : m.path ≠ []) : m.node = none := by
  subst ho
  simp only [matchStepF] at h
  repeat' split at h
  all_goals first
    | (injection h with h1; exact matchFinish_nil_rpath _ _ _ _ _ h1 hne)
    | (exfalso; simp_all)

/-- Loop invariant for C5: with an empty redirect accumulator, an ok
result with a nonempty redirect path carries a nil node. -/
theorem matchLoop_rpath (t : Trie) (path : Str) (pend : Nat) :
    ∀ (fuel i start parentId : Nat) (params : List (Str × Str)) (m : Matched),
      matchLoop t path pend fuel i start parentId params [] = MatchOut.ok m →
      m.path ≠ [] → m.node = none := by
  intro fuel
  induction fuel with
  | zero =>
    intro i start parentId params m h hne
    injection h with h2
    rw [← h2] at hne
    exact absurd rfl hne
  | succ fuel ih =>
    intro i start parentId params m h hne
    rw [matchLoop] at h
    by_cases hle : i ≤ pend
    · rw [if_pos hle] at h
      by_cases hskip : i < pend ∧ path.getD i ' ' ≠ '/'
      · rw [if_pos hskip] at h
        exact ih _ _ _ _ _ h hne
      · rw [if_neg hskip] at h
        simp only at h
        by_cases hcond :
            (t.node parentId).endpoint ∧ i = pend ∧ (path.drop start).take (i - start) = []
        · rw [if_pos hcond] at h
          cases hmn : matchNode t parentId ((path.drop start).take (i - start)) (path.drop i) with
          | some nid =>
            rw [hmn] at h
            simp only at h
            cases hst : matchStepF t path pend i start nid params [] with
            | next i2 s2 p2 ps2 rp2 =>
              rw [hst] at h
              have hrp := matchStepF_next_rpath _ _ _ _ _ _ _ _ _ _ _ _ _ hst
              rw [hrp] at h
              exact ih _ _ _ _ _ h hne
            | ret o =>
              rw [hst] at h
              exact matchStepF_ret_rpath _ _ _ _ _ _ _ _ _ hst h hne
          | none =>
            rw [hmn] at h
            simp only at h
            rw [if_pos hcond.2.1, hcond.2.2, tryExts_nil_seg] at h
            simp only at h
            injection h with h2
            rw [← h2]
        · rw [if_neg hcond] at h
          cases hmn : matchNode t parentId ((path.drop start).take (i - start)) (path.drop i) with
          | some nid =>
            rw [hmn] at h
            simp only at h
            cases hst : matchStepF t path pend i start nid params [] with
            | next i2 s2 p2 ps2 rp2 =>
              rw [hst] at h
              have hrp := matchStepF_next_rpath _ _ _ _ _ _ _ _ _ _ _ _ _ hst
              rw [hrp] at h
              exact ih _ _ _ _ _ h hne
            | ret o =>
              rw [hst] at h
              exact matchStepF_ret_rpath _ _ _ _ _ _ _ _ _ hst h hne
          | none =>
            rw [hmn] at h
            simp only at h
            by_cases hiend : i = pend
            · rw [if_pos hiend] at h
              cases hte : tryExts t parentId ((path.drop start).take (i - start)) (path.drop i)
                  allowSuffixExt with
              | some er =>
                rw [hte] at h
                simp only at h
                cases hst : matchStepF t path pend i start er.2
                    (setParam params (str ":ext") (er.1.drop 1)) [] with
                | next i2 s2 p2 ps2 rp2 =>
                  rw [hst] at h
                  have hrp := matchStepF_next_rpath _ _ _ _ _ _ _ _ _ _ _ _ _ hst
                  rw [hrp] at h
                  exact ih _ _ _ _ _ h hne
                | ret o =>
                  rw [hst] at h
                  exact matchStepF_ret_rpath _ _ _ _ _ _ _ _ _ hst h hne
              | none =>
                rw [hte] at h
                simp only at h
                injection h with h2
                rw [← h2]
            · rw [if_neg hiend] at h
              injection h with h2
              rw [← h2]
    · rw [if_neg hle] at h
      exact matchFinish_nil_rpath t parentId params path m h hne

/-- C5: Match never both selects a node and proposes a redirect. The
universal conjunct: whenever Match returns ok with a nonempty redirect
path, the matched node is nil. The concrete conjuncts exhibit the two
redirect forms: trailing-slash removal (/abc registered, /abc/ requested)
and trailing-slash addition (/abc/ registered, /abc requested), both with
a nil node. -/
theorem c5_redirect_nil_node :
    (∀ (t : Trie) (path : Str) (m : Matched),
      t.Match path = MatchOut.ok m → m.path ≠ [] → m.node = none) ∧
    (testTrie |> (reg · "/abc")).Match (str "/abc/") = MatchOut.ok ⟨none, [], str "/abc"⟩ ∧
    (testTrie |> (reg · "/abc/")).Match (str "/abc") = MatchOut.ok ⟨none, [], str "/abc/"⟩ := by
  refine ⟨?_, by decide, by decide⟩
  intro t path m h hne
  unfold Trie.Match at h
  split at h
  · injection h
  · exact matchLoop_rpath t _ _ _ _ _ _ _ _ h hne

/-- C5 witness: the universal conjunct applied to the trailing-slash
removal scenario. -/
theorem c5_redirect_nil_node_witness :
    (⟨none, [], str "/abc"⟩ : Matched).node = none :=
  c5_redirect_nil_node.1 (testTrie |> (reg · "/abc")) (str "/abc/") ⟨none, [], str "/abc"⟩
    (by decide) (by decide)

/-- Writing one arena slot leaves other slots unchanged. -/
theorem node_set_ne (t : Trie) (i j : Nat) (n : Node) (h : j ≠ i) :
    (t.setNode i n).node j = t.node j := by
  simp only [Trie.node, Trie.setNode, List.getD]
  rw [List.get?_set_ne n t.nodes (fun e => h e.symm)]

/-- Reading back a written arena slot. -/
theorem node_set_self (t : Trie) (i : Nat) (n : Node) (h : i < t.nodes.length) :
    (t.setNode i n).node i = n := by
  simp only [Trie.node, Trie.setNode, List.getD]
  rw [List.get?_set_eq_of_lt n h]
  rfl

/-- Appending a node leaves existing slots unchanged. -/
theorem node_add_old (t : Trie) (n : Node) (j : Nat) (h : j < t.nodes.length) :
    (addNode t n).node j = t.node j := by
  simp only [Trie.node, addNode, List.getD]
  rw [List.get?_append h]

/-- Indexing an append at the left length addresses the right head. -/
theorem get_append_len {α : Type} (l m : List α) : (l ++ m).get? l.length = m.get? 0 := by
  induction l with
  | nil => rfl
  | cons a l ih => simpa using ih

/-- Reading the appended node. -/
theorem node_add_new (t : Trie) (n : Node) : (addNode t n).node t.nodes.length = n := by
  simp only [Trie.node, addNode, List.getD]
  rw [get_append_len]
  rfl

/-- find? skips a prefix it rejects wholesale. -/
theorem find_append_none {α : Type} (l1 l2 : List α) (p : α → Bool) (h : l1.find? p = none) :
    (l1 ++ l2).find? p = l2.find? p := by
  induction l1 with
  | nil => rfl
  | cons a l ih =>
    cases hpa : p a with
    | true => simp [List.find?, hpa] at h
    | false =>
      simp only [List.find?, hpa, List.cons_append] at h ⊢
      exact ih h

/-- find? only depends on the predicate's values on the list members. -/
theorem find_congr_mem {α : Type} (l : List α) (p q : α → Bool) (h : ∀ a ∈ l, p a = q a) :
    l.find? p = l.find? q := by
  induction l with
  | nil => rfl
  | cons a l ih =>
    have ha := h a (by simp)
    cases hpa : p a with
    | true => simp [List.find?, hpa, ← ha]
    | false =>
      simp only [List.find?, hpa, ← ha]
      exact ih (fun x hx => h x (List.mem_cons_of_mem a hx))

/-- Inserting a key the map does not yet hold makes lookups find it. -/
theorem lookupA_insertA_fresh (l : List (Str × Nat)) (k : Str) (v : Nat)
    (h : lookupA l k = none) : lookupA (insertA l k v) k = some v := by
  have hf : l.find? (fun p => p.1 = k) = none := by
    simp only [lookupA] at h
    cases hh : l.find? (fun p => p.1 = k) with
    | none => rfl
    | some x => rw [hh] at h; simp at h
  simp only [insertA, hf, Option.isSome_none, Bool.false_eq_true, if_neg, ite_false]
  simp only [lookupA]
  rw [find_append_none _ _ _ hf]
  simp [List.find?]

/-- All child indices a node stores, across its four collections. -/
def childIds (n : Node) : List Nat :=
  n.children.map (fun p => p.2) ++ n.segChildren ++ n.optionChildren ++ n.varyChildren

/-- Arena well-formedness: the arena is nonempty (the root is slot 0) and
every stored child index is greater than its owner's index and within the
arena. NewTrie establishes it; registration preserves it because a new
node always receives the next free index. -/
def ArenaOK (t : Trie) : Prop :=
  t.nodes ≠ [] ∧
  ∀ i, i < t.nodes.length → ∀ c ∈ childIds (t.node i), i < c ∧ c < t.nodes.length

example : ArenaOK testTrie := by
  constructor
  · decide
  · decide

/-- Length after the create step of parseSegment. -/
theorem modAdd_len (t : Trie) (nodeB : Node) (p : Nat) (f : Node → Node) :
    (modParent (addNode t nodeB) p f).nodes.length = t.nodes.length + 1 := by
  simp [modParent, Trie.setNode, addNode]

/-- The parent slot after the create step. -/
theorem modAdd_node_p (t : Trie) (nodeB : Node) (p : Nat) (f : Node → Node)
    (hp : p < t.nodes.length) : (modParent (addNode t nodeB) p f).node p = f (t.node p) := by
  simp only [modParent]
  rw [node_set_self _ _ _ (by simp [addNode]; omega), node_add_old _ _ _ hp]

/-- Untouched slots after the create step. -/
theorem modAdd_node_other (t : Trie) (nodeB : Node) (p : Nat) (f : Node → Node) (j : Nat)
    (hj : j ≠ p) (hlt : j < t.nodes.length) :
    (modParent (addNode t nodeB) p f).node j = t.node j := by
  simp only [modParent]
  rw [node_set_ne _ _ _ _ hj, node_add_old _ _ _ hlt]

/-- The fresh slot после the create step. -/
theorem modAdd_node_new (t : Trie) (nodeB : Node) (p : Nat) (f : Node → Node)
    (hp : p < t.nodes.length) :
    (modParent (addNode t nodeB) p f).node t.nodes.length = nodeB := by
  simp only [modParent]
  rw [node_set_ne _ _ _ _ (by omega), node_add_new]

/-- The create step preserves the router options. -/
theorem modAdd_flags (t : Trie) (nodeB : Node) (p : Nat) (f : Node → Node) :
    (modParent (addNode t nodeB) p f).caseSensitive = t.caseSensitive ∧
    (modParent (addNode t nodeB) p f).pathClean = t.pathClean := by
  simp [modParent, Trie.setNode, addNode]

/-- Children of the parent keep their stored nodes across the create step. -/
theorem child_node_stable (t : Trie) (nodeB : Node) (p : Nat) (f : Node → Node)
    (hA : ArenaOK t) (hp : p < t.nodes.length) (c : Nat) (hc : c ∈ childIds (t.node p)) :
    (modParent (addNode t nodeB) p f).node c = t.node c := by
  obtain ⟨hgt, hlt⟩ := hA.2 p hp c hc
  exact modAdd_node_other _ _ _ _ _ (by omega) hlt

/-- Raw-text scans only read the segment fields of the listed nodes. -/
theorem find_seg_stable (t t2 : Trie) (ids : List Nat) (key : Str)
    (hstable : ∀ c ∈ ids, t2.node c = t.node c) :
    ids.find? (fun c => (t2.node c).segment = key) =
    ids.find? (fun c => (t.node c).segment = key) :=
  find_congr_mem _ _ _ (fun c hc => by rw [hstable c hc])

/-- Membership helpers into childIds. -/
theorem mem_childIds_of_child (n : Node) (c : Nat) (h : c ∈ n.children.map (fun p => p.2)) :
    c ∈ childIds n := by
  simp only [childIds, List.mem_append]
  exact Or.inl (Or.inl (Or.inl h))

theorem mem_childIds_of_seg (n : Node) (c : Nat) (h : c ∈ n.segChildren) : c ∈ childIds n := by
  simp [childIds]; tauto

theorem mem_childIds_of_opt (n : Node) (c : Nat) (h : c ∈ n.optionChildren) : c ∈ childIds n := by
  simp [childIds]; tauto

theorem mem_childIds_of_vary (n : Node) (c : Nat) (h : c ∈ n.varyChildren) : c ∈ childIds n := by
  simp [childIds]; tauto

/-- Second components of an insertA result. -/
theorem insertA_snd_mem (l : List (Str × Nat)) (k : Str) (v c : Nat)
    (h : c ∈ (insertA l k v).map (fun p => p.2)) : c ∈ l.map (fun p => p.2) ∨ c = v := by
  simp only [insertA] at h
  split at h
  · rw [List.map_map, List.mem_map] at h
    obtain ⟨pr0, hmem0, heq0⟩ := h
    by_cases hk : pr0.1 = k
    · right
      simp only [Function.comp, hk, if_pos] at heq0
      exact heq0.symm
    · left
      simp only [Function.comp, hk, if_neg, ite_false] at heq0
      rw [List.mem_map]
      exact ⟨pr0, hmem0, heq0⟩
  · rw [List.map_append, List.mem_append] at h
    rcases h with h | h
    · exact Or.inl h
    · right
      simp only [List.map_cons, List.map_nil, List.mem_singleton] at h
      exact h

/-- Decomposition of a failed getChild into its four failed stages. -/
theorem getChild_none_parts (t : Trie) (p : Nat) (s : Str) (h : getChild t p s = none) :
    lookupA (t.node p).children (normKey s) = none ∧
    (t.node p).segChildren.find? (fun c => (t.node c).segment = normKey s) = none ∧
    (t.node p).optionChildren.find? (fun c => (t.node c).segment = normKey s) = none ∧
    (t.node p).varyChildren.find? (fun c => (t.node c).segment = normKey s) = none := by
  simp only [getChild] at h
  cases h1 : lookupA (t.node p).children (normKey s) with
  | some c => rw [h1] at h; exact absurd h (by simp)
  | none =>
    rw [h1] at h
    cases h2 : (t.node p).segChildren.find? (fun c => (t.node c).segment = normKey s) with
    | some c => rw [h2] at h; exact absurd h (by simp)
    | none =>
      rw [h2] at h
      cases h3 : (t.node p).optionChildren.find? (fun c => (t.node c).segment = normKey s) with
      | some c => rw [h3] at h; exact absurd h (by simp)
      | none =>
        rw [h3] at h
        exact ⟨rfl, rfl, rfl, h⟩

/-- A successful getChild returns one of the parent's stored children. -/
theorem getChild_some_mem (t : Trie) (p : Nat) (s : Str) (c : Nat)
    (h : getChild t p s = some c) : c ∈ childIds (t.node p) := by
  simp only [getChild] at h
  cases h1 : lookupA (t.node p).children (normKey s) with
  | some c2 =>
    rw [h1] at h
    injection h with h2
    subst h2
    simp only [lookupA] at h1
    cases hf : (t.node p).children.find? (fun pr => pr.1 = normKey s) with
    | none => rw [hf] at h1; exact absurd h1 (by simp)
    | some pr =>
      rw [hf] at h1
      injection h1 with h3
      subst h3
      refine mem_childIds_of_child _ _ ?_
      rw [List.mem_map]
      exact ⟨pr, List.mem_of_find?_eq_some hf, rfl⟩
  | none =>
    rw [h1] at h
    cases h2 : (t.node p).segChildren.find? (fun c => (t.node c).segment = normKey s) with
    | some c2 =>
      rw [h2] at h
      injection h with h3
      subst h3
      exact mem_childIds_of_seg _ _ (List.mem_of_find?_eq_some h2)
    | none =>
      rw [h2] at h
      cases h3 : (t.node p).optionChildren.find? (fun c => (t.node c).segment = normKey s) with
      | some c2 =>
        rw [h3] at h
        injection h with h4
        subst h4
        exact mem_childIds_of_opt _ _ (List.mem_of_find?_eq_some h3)
      | none =>
        rw [h3] at h
        exact mem_childIds_of_vary _ _ (List.mem_of_find?_eq_some h)

/-- The create step preserves the arena invariant when the new node is
childless and the parent update only adds the fresh index. -/
theorem modAdd_ArenaOK (t : Trie) (nodeB : Node) (p : Nat) (f : Node → Node)
    (hA : ArenaOK t) (hp : p < t.nodes.length) (hB : childIds nodeB = [])
    (hf : ∀ pn c, c ∈ childIds (f pn) → c ∈ childIds pn ∨ c = t.nodes.length) :
    ArenaOK (modParent (addNode t nodeB) p f) := by
  constructor
  · intro he
    have hlen := modAdd_len t nodeB p f
    rw [he] at hlen
    simp at hlen
  · intro i hi c hc
    rw [modAdd_len] at hi
    by_cases hip : i = p
    · subst hip
      rw [modAdd_node_p _ _ _ _ hp] at hc
      rcases hf (t.node i) c hc with hold | hnew
      · have hb := hA.2 i hp c hold
        exact ⟨hb.1, by rw [modAdd_len]; omega⟩
      · subst hnew
        exact ⟨hp, by rw [modAdd_len]; omega⟩
    · by_cases hilen : i < t.nodes.length
      · rw [modAdd_node_other _ _ _ _ _ hip hilen] at hc
        have hb := hA.2 i hilen c hc
        exact ⟨hb.1, by rw [modAdd_len]; omega⟩
      · have hieq : i = t.nodes.length := by omega
        subst hieq
        rw [modAdd_node_new _ _ _ _ hp, hB] at hc
        exact absurd hc (List.not_mem_nil c)

/-- The contract of one parseSegment call: invariant kept, strictly deeper
in-range child, arena only grows, other slots and the parent's segment and
pattern unchanged, options kept, and a re-lookup finds the same child. -/
abbrev PSSpec (t : Trie) (p : Nat) (s : Str) (t2 : Trie) (c : Nat) : Prop :=
  ArenaOK t2 ∧ p < c ∧ c < t2.nodes.length ∧ t.nodes.length ≤ t2.nodes.length ∧
  (∀ j, j ≠ p → j < t.nodes.length → t2.node j = t.node j) ∧
  (t2.node p).segment = (t.node p).segment ∧
  (t2.node p).pattern = (t.node p).pattern ∧
  t2.caseSensitive = t.caseSensitive ∧ t2.pathClean = t.pathClean ∧
  getChild t2 p s = some c

/-- New-child bookkeeping for a static-map update. -/
theorem hf_children (key : Str) (nid : Nat) (pn : Node) (c : Nat)
    (hc : c ∈ childIds { pn with children := insertA pn.children key nid }) :
    c ∈ childIds pn ∨ c = nid := by
  simp only [childIds, List.mem_append] at hc
  rcases hc with ((hm | hs) | ho) | hv
  · rcases insertA_snd_mem _ _ _ _ hm with hm2 | hm2
    · exact Or.inl (mem_childIds_of_child _ _ hm2)
    · exact Or.inr hm2
  · exact Or.inl (mem_childIds_of_seg _ _ hs)
  · exact Or.inl (mem_childIds_of_opt _ _ ho)
  · exact Or.inl (mem_childIds_of_vary _ _ hv)

/-- New-child bookkeeping for appends to the three ordered lists. -/
theorem hf_lists (nid : Nat) (pn : Node) (c : Nat) (sAdd oAdd vAdd : Bool)
    (hc : c ∈ childIds { pn with
      segChildren := pn.segChildren ++ (if sAdd then [nid] else []),
      optionChildren := pn.optionChildren ++ (if oAdd then [nid] else []),
      varyChildren := pn.varyChildren ++ (if vAdd then [nid] else []) }) :
    c ∈ childIds pn ∨ c = nid := by
  simp only [childIds, List.mem_append] at hc
  rcases hc with ((hm | hs) | ho) | hv
  · exact Or.inl (mem_childIds_of_child _ _ hm)
  · rcases hs with hs | hs
    · exact Or.inl (mem_childIds_of_seg _ _ hs)
    · split at hs
      · simp at hs; exact Or.inr hs
      · simp at hs
  · rcases ho with ho | ho
    · exact Or.inl (mem_childIds_of_opt _ _ ho)
    · split at ho
      · simp at ho; exact Or.inr ho
      · simp at ho
  · rcases hv with hv | hv
    · exact Or.inl (mem_childIds_of_vary _ _ hv)
    · split at hv
      · simp at hv; exact Or.inr hv
      · simp at hv

/-- After the create step, a lookup finds a child appended to the
segment-children list (the static map and earlier scans cannot hit). -/
theorem getChild_create_seg (t : Trie) (nodeB : Node) (p : Nat) (f : Node → Node) (s : Str)
    (hA : ArenaOK t) (hp : p < t.nodes.length) (hgc : getChild t p s = none)
    (hnk : normKey s = s) (hsegB : nodeB.segment = s)
    (hchil : (f (t.node p)).children = (t.node p).children)
    (hseg : (f (t.node p)).segChildren = (t.node p).segChildren ++ [t.nodes.length]) :
    getChild (modParent (addNode t nodeB) p f) p s = some t.nodes.length := by
  have parts := getChild_none_parts t p s hgc
  have hnew : (modParent (addNode t nodeB) p f).node t.nodes.length = nodeB :=
    modAdd_node_new t nodeB p f hp
  have hstable : ∀ (ids : List Nat), (∀ c ∈ ids, c ∈ childIds (t.node p)) →
      ids.find? (fun c => ((modParent (addNode t nodeB) p f).node c).segment = normKey s) =
      ids.find? (fun c => (t.node c).segment = normKey s) := fun ids hsub =>
    find_seg_stable t _ ids (normKey s)
      (fun c hc => child_node_stable t nodeB p f hA hp c (hsub c hc))
  simp only [getChild]
  rw [modAdd_node_p _ _ _ _ hp, hchil, hseg, parts.1]
  rw [find_append_none _ _ _
    (by rw [hstable _ (fun c hc => mem_childIds_of_seg _ _ hc)]; exact parts.2.1)]
  simp [List.find?, hnew, hsegB, hnk]

/-- After the create step, a lookup finds a child appended to the
optional-children list when the segment children are untouched. -/
theorem getChild_create_opt (t : Trie) (nodeB : Node) (p : Nat) (f : Node → Node) (s : Str)
    (hA : ArenaOK t) (hp : p < t.nodes.length) (hgc : getChild t p s = none)
    (hnk : normKey s = s) (hsegB : nodeB.segment = s)
    (hchil : (f (t.node p)).children = (t.node p).children)
    (hseg : (f (t.node p)).segChildren = (t.node p).segChildren)
    (hopt : (f (t.node p)).optionChildren = (t.node p).optionChildren ++ [t.nodes.length]) :
    getChild (modParent (addNode t nodeB) p f) p s = some t.nodes.length := by
  have parts := getChild_none_parts t p s hgc
  have hnew : (modParent (addNode t nodeB) p f).node t.nodes.length = nodeB :=
    modAdd_node_new t nodeB p f hp
  have hstable : ∀ (ids : List Nat), (∀ c ∈ ids, c ∈ childIds (t.node p)) →
      ids.find? (fun c => ((modParent (addNode t nodeB) p f).node c).segment = normKey s) =
      ids.find? (fun c => (t.node c).segment = normKey s) := fun ids hsub =>
    find_seg_stable t _ ids (normKey s)
      (fun c hc => child_node_stable t nodeB p f hA hp c (hsub c hc))
  simp only [getChild]
  rw [modAdd_node_p _ _ _ _ hp, hchil, hseg, hopt, parts.1]
  rw [hstable _ (fun c hc => mem_childIds_of_seg _ _ hc), parts.2.1]
  rw [find_append_none _ _ _
    (by rw [hstable _ (fun c hc => mem_childIds_of_opt _ _ hc)]; exact parts.2.2.1)]
  simp [List.find?, hnew, hsegB, hnk]

/-- After the create step, a lookup finds a child appended to the
vary-children list when the other collections are untouched. -/
theorem getChild_create_vary (t : Trie) (nodeB : Node) (p : Nat) (f : Node → Node) (s : Str)
    (hA : ArenaOK t) (hp : p < t.nodes.length) (hgc : getChild t p s = none)
    (hnk : normKey s = s) (hsegB : nodeB.segment = s)
    (hchil : (f (t.node p)).children = (t.node p).children)
    (hseg : (f (t.node p)).segChildren = (t.node p).segChildren)
    (hopt : (f (t.node p)).optionChildren = (t.node p).optionChildren)
    (hvary : (f (t.node p)).varyChildren = (t.node p).varyChildren ++ [t.nodes.length]) :
    getChild (modParent (addNode t nodeB) p f) p s = some t.nodes.length := by
  have parts := getChild_none_parts t p s hgc
  have hnew : (modParent (addNode t nodeB) p f).node t.nodes.length = nodeB :=
    modAdd_node_new t nodeB p f hp
  have hstable : ∀ (ids : List Nat), (∀ c ∈ ids, c ∈ childIds (t.node p)) →
      ids.find? (fun c => ((modParent (addNode t nodeB) p f).node c).segment = normKey s) =
      ids.find? (fun c => (t.node c).segment = normKey s) := fun ids hsub =>
    find_seg_stable t _ ids (normKey s)
      (fun c hc => child_node_stable t nodeB p f hA hp c (hsub c hc))
  simp only [getChild]
  rw [modAdd_node_p _ _ _ _ hp, hchil, hseg, hopt, hvary, parts.1]
  rw [hstable _ (fun c hc => mem_childIds_of_seg _ _ hc), parts.2.1]
  rw [hstable _ (fun c hc => mem_childIds_of_opt _ _ hc), parts.2.2.1]
  rw [find_append_none _ _ _
    (by rw [hstable _ (fun c hc => mem_childIds_of_vary _ _ hc)]; exact parts.2.2.2)]
  simp [List.find?, hnew, hsegB, hnk]

/-- After the create step, a lookup finds a child inserted into the static
map. -/
theorem getChild_create_map (t : Trie) (nodeB : Node) (p : Nat) (f : Node → Node) (s key : Str)
    (hp : p < t.nodes.length) (hgc : getChild t p s = none) (hkey : key = normKey s)
    (hchil : (f (t.node p)).children = insertA (t.node p).children key t.nodes.length) :
    getChild (modParent (addNode t nodeB) p f) p s = some t.nodes.length := by
  have parts := getChild_none_parts t p s hgc
  simp only [getChild]
  rw [modAdd_node_p _ _ _ _ hp, hchil, hkey, lookupA_insertA_fresh _ _ _ parts.1]

/-- The parseSegment contract holds: reuse returns the existing child,
creation returns the fresh index and leaves a trie in which the same
lookup finds that index. -/
theorem parseSegment_spec (t : Trie) (p : Nat) (s : Str) (hA : ArenaOK t)
    (hp : p < t.nodes.length) :
    PSSpec t p s (parseSegment t p s).1 (parseSegment t p s).2 := by
  cases hgc : getChild t p s with
  | some c =>
    have hmem := getChild_some_mem t p s c hgc
    have hb := hA.2 p hp c hmem
    simp only [parseSegment, hgc]
    exact ⟨hA, hb.1, hb.2, Nat.le_refl _, fun j _ _ => rfl, rfl, rfl, rfl, rfl, hgc⟩
  | none =>
    simp only [parseSegment, hgc]
    by_cases h1 : s = []
    · rw [if_pos h1]
      subst h1
      refine ⟨?_, hp, ?_, ?_, fun j hj hlt => modAdd_node_other _ _ _ _ _ hj hlt,
        ?_, ?_, (modAdd_flags _ _ _ _).1, (modAdd_flags _ _ _ _).2, ?_⟩
      · exact modAdd_ArenaOK _ _ _ _ hA hp (by simp [childIds])
          (fun pn c hc => hf_children _ _ pn c hc)
      · rw [modAdd_len]; omega
      · rw [modAdd_len]; omega
      · rw [modAdd_node_p _ _ _ _ hp]
      · rw [modAdd_node_p _ _ _ _ hp]
      · exact getChild_create_map _ _ _ _ _ _ hp hgc (by decide) rfl
    · rw [if_neg h1]
      by_cases h2 : hasDColon s = true
      · rw [if_pos h2]
        refine ⟨?_, hp, ?_, ?_, fun j hj hlt => modAdd_node_other _ _ _ _ _ hj hlt,
          ?_, ?_, (modAdd_flags _ _ _ _).1, (modAdd_flags _ _ _ _).2, ?_⟩
        · exact modAdd_ArenaOK _ _ _ _ hA hp (by simp [childIds])
            (fun pn c hc => hf_children _ _ pn c hc)
        · rw [modAdd_len]; omega
        · rw [modAdd_len]; omega
        · rw [modAdd_node_p _ _ _ _ hp]
        · rw [modAdd_node_p _ _ _ _ hp]
        · exact getChild_create_map _ _ _ _ _ _ hp hgc (by simp [normKey, h2]) rfl
      · have h2f : hasDColon s = false := by
          rw [Bool.not_eq_true] at h2
          exact h2
        have hnk : normKey s = s := by simp [normKey, h2f]
        rw [if_neg h2]
        by_cases h3 : s = str "*"
        · rw [if_pos h3]
          refine ⟨?_, hp, ?_, ?_, fun j hj hlt => modAdd_node_other _ _ _ _ _ hj hlt,
            ?_, ?_, (modAdd_flags _ _ _ _).1, (modAdd_flags _ _ _ _).2, ?_⟩
          · refine modAdd_ArenaOK _ _ _ _ hA hp (by simp [childIds]) ?_
            intro pn c hc
            exact hf_lists _ pn c false false true (by simpa using hc)
          · rw [modAdd_len]; omega
          · rw [modAdd_len]; omega
          · rw [modAdd_node_p _ _ _ _ hp]
          · rw [modAdd_node_p _ _ _ _ hp]
          · exact getChild_create_vary _ _ _ _ _ hA hp hgc hnk rfl rfl rfl rfl rfl
        · rw [if_neg h3]
          by_cases h4 : s = str "*.*"
          · rw [if_pos h4]
            refine ⟨?_, hp, ?_, ?_, fun j hj hlt => modAdd_node_other _ _ _ _ _ hj hlt,
              ?_, ?_, (modAdd_flags _ _ _ _).1, (modAdd_flags _ _ _ _).2, ?_⟩
            · refine modAdd_ArenaOK _ _ _ _ hA hp (by simp [childIds]) ?_
              intro pn c hc
              exact hf_lists _ pn c false false true (by simpa using hc)
            · rw [modAdd_len]; omega
            · rw [modAdd_len]; omega
            · rw [modAdd_node_p _ _ _ _ hp]
            · rw [modAdd_node_p _ _ _ _ hp]
            · exact getChild_create_vary _ _ _ _ _ hA hp hgc hnk rfl rfl rfl rfl rfl
          · rw [if_neg h4]
            by_cases h5 : isOptionalParamSeg s = true
            · rw [if_pos h5]
              refine ⟨?_, hp, ?_, ?_, fun j hj hlt => modAdd_node_other _ _ _ _ _ hj hlt,
                ?_, ?_, (modAdd_flags _ _ _ _).1, (modAdd_flags _ _ _ _).2, ?_⟩
              · refine modAdd_ArenaOK _ _ _ _ hA hp (by simp [childIds]) ?_
                intro pn c hc
                exact hf_lists _ pn c true true false (by simpa using hc)
              · rw [modAdd_len]; omega
              · rw [modAdd_len]; omega
              · rw [modAdd_node_p _ _ _ _ hp]
              · rw [modAdd_node_p _ _ _ _ hp]
              · exact getChild_create_seg _ _ _ _ _ hA hp hgc hnk rfl rfl rfl
            · rw [if_neg h5]
              by_cases h6 : isParamSeg s = true
              · rw [if_pos h6]
                refine ⟨?_, hp, ?_, ?_, fun j hj hlt => modAdd_node_other _ _ _ _ _ hj hlt,
                  ?_, ?_, (modAdd_flags _ _ _ _).1, (modAdd_flags _ _ _ _).2, ?_⟩
                · refine modAdd_ArenaOK _ _ _ _ hA hp (by simp [childIds]) ?_
                  intro pn c hc
                  exact hf_lists _ pn c true false false (by simpa using hc)
                · rw [modAdd_len]; omega
                · rw [modAdd_len]; omega
                · rw [modAdd_node_p _ _ _ _ hp]
                · rw [modAdd_node_p _ _ _ _ hp]
                · exact getChild_create_seg _ _ _ _ _ hA hp hgc hnk rfl rfl rfl
              · rw [if_neg h6]
                by_cases h7 : s.contains ':' = true
                · rw [if_pos h7]
                  by_cases h8 : (regexpSegment s).2.2 = true
                  · refine ⟨?_, hp, ?_, ?_,
                      fun j hj hlt => modAdd_node_other _ _ _ _ _ hj hlt,
                      ?_, ?_, (modAdd_flags _ _ _ _).1, (modAdd_flags _ _ _ _).2, ?_⟩
                    · refine modAdd_ArenaOK _ _ _ _ hA hp (by simp [childIds]) ?_
                      intro pn c hc
                      exact hf_lists _ pn c false true true (by simpa [h8] using hc)
                    · rw [modAdd_len]; omega
                    · rw [modAdd_len]; omega
                    · rw [modAdd_node_p _ _ _ _ hp]
                    · rw [modAdd_node_p _ _ _ _ hp]
                    · refine getChild_create_opt _ _ _ _ _ hA hp hgc hnk rfl rfl rfl ?_
                      simp [h8]
                  · refine ⟨?_, hp, ?_, ?_,
                      fun j hj hlt => modAdd_node_other _ _ _ _ _ hj hlt,
                      ?_, ?_, (modAdd_flags _ _ _ _).1, (modAdd_flags _ _ _ _).2, ?_⟩
                    · refine modAdd_ArenaOK _ _ _ _ hA hp (by simp [childIds]) ?_
                      intro pn c hc
                      exact hf_lists _ pn c false false true (by simpa [h8] using hc)
                    · rw [modAdd_len]; omega
                    · rw [modAdd_len]; omega
                    · rw [modAdd_node_p _ _ _ _ hp]
                    · rw [modAdd_node_p _ _ _ _ hp]
                    · refine getChild_create_vary _ _ _ _ _ hA hp hgc hnk rfl rfl rfl ?_ ?_
                      · simp [h8]
                      · rfl
                · rw [if_neg h7]
                  refine ⟨?_, hp, ?_, ?_, fun j hj hlt => modAdd_node_other _ _ _ _ _ hj hlt,
                    ?_, ?_, (modAdd_flags _ _ _ _).1, (modAdd_flags _ _ _ _).2, ?_⟩
                  · exact modAdd_ArenaOK _ _ _ _ hA hp (by simp [childIds])
                      (fun pn c hc => hf_children _ _ pn c hc)
                  · rw [modAdd_len]; omega
                  · rw [modAdd_len]; omega
                  · rw [modAdd_node_p _ _ _ _ hp]
                  · rw [modAdd_node_p _ _ _ _ hp]
                  · exact getChild_create_map _ _ _ _ _ _ hp hgc hnk.symm rfl

/-- setNode keeps the arena length. -/
theorem setNode_len (t : Trie) (i : Nat) (n : Node) :
    (t.setNode i n).nodes.length = t.nodes.length := by simp [Trie.setNode]

/-- setNode keeps the options. -/
theorem setNode_flags (t : Trie) (i : Nat) (n : Node) :
    (t.setNode i n).caseSensitive = t.caseSensitive ∧
    (t.setNode i n).pathClean = t.pathClean := by simp [Trie.setNode]

/-- setNode keeps the arena invariant when the replacement node stores the
same child indices. -/
theorem setNode_ArenaOK (t : Trie) (c : Nat) (nn : Node) (hA : ArenaOK t)
    (hlt : c < t.nodes.length) (hc : childIds nn = childIds (t.node c)) :
    ArenaOK (t.setNode c nn) := by
  constructor
  · intro he
    have hl := setNode_len t c nn
    rw [he] at hl
    simp at hl
    exact hA.1 (List.length_eq_zero.mp hl.symm)
  · intro i hi cc hcc
    rw [setNode_len] at hi
    by_cases hic : i = c
    · subst hic
      rw [node_set_self _ _ _ hlt, hc] at hcc
      have hb := hA.2 i hi cc hcc
      exact ⟨hb.1, by rw [setNode_len]; exact hb.2⟩
    · rw [node_set_ne _ _ _ _ hic] at hcc
      have hb := hA.2 i hi cc hcc
      exact ⟨hb.1, by rw [setNode_len]; exact hb.2⟩

/-- The contract of a full insertion walk below parent p. -/
abbrev PPSpec (t : Trie) (p : Nat) (t2 : Trie) (n : Nat) : Prop :=
  ArenaOK t2 ∧ p < n ∧ n < t2.nodes.length ∧ t.nodes.length ≤ t2.nodes.length ∧
  (∀ j, j < p → t2.node j = t.node j) ∧
  (∀ j, j < t.nodes.length → (t2.node j).segment = (t.node j).segment ∧
    (t2.node j).pattern = (t.node j).pattern) ∧
  t2.caseSensitive = t.caseSensitive ∧ t2.pathClean = t.pathClean

/-- The insertion walk satisfies its contract. -/
theorem parsePattern_spec (segs : List Str) (hne : segs ≠ []) :
    ∀ (t : Trie) (p : Nat), ArenaOK t → p < t.nodes.length →
      PPSpec t p (parsePattern t p segs).1 (parsePattern t p segs).2 := by
  induction segs with
  | nil => exact absurd rfl hne
  | cons s rest ih =>
    intro t p hA hp
    obtain ⟨hsA, hslt, hsclen, hsmono, hsframe, hsseg, hspat, hscs, hspc, hsgc⟩ :=
      parseSegment_spec t p s hA hp
    cases rest with
    | nil =>
      simp only [parsePattern]
      refine ⟨?_, hslt, ?_, ?_, ?_, ?_, ?_, ?_⟩
      · exact setNode_ArenaOK _ _ _ hsA hsclen rfl
      · rw [setNode_len]; exact hsclen
      · rw [setNode_len]; exact hsmono
      · intro j hj
        have hjp : j ≠ p := by omega
        have hjc : j ≠ (parseSegment t p s).2 := by omega
        rw [node_set_ne _ _ _ _ hjc]
        exact hsframe j hjp (by omega)
      · intro j hjlen
        by_cases hjc : j = (parseSegment t p s).2
        · have hcp : (parseSegment t p s).2 ≠ p := by omega
          have hclen : (parseSegment t p s).2 < t.nodes.length := hjc ▸ hjlen
          have h2 := hsframe (parseSegment t p s).2 hcp hclen
          rw [hjc, node_set_self _ _ _ hsclen]
          exact ⟨by rw [h2], by rw [h2]⟩
        · rw [node_set_ne _ _ _ _ hjc]
          by_cases hjp : j = p
          · subst hjp
            exact ⟨hsseg, hspat⟩
          · rw [hsframe j hjp hjlen]
            exact ⟨rfl, rfl⟩
      · rw [(setNode_flags _ _ _).1]; exact hscs
      · rw [(setNode_flags _ _ _).2]; exact hspc
    | cons s2 rest2 =>
      simp only [parsePattern]
      obtain ⟨ihA, ihlt, ihnlen, ihmono, ihframe, ihfields, ihcs, ihpc⟩ :=
        ih (by simp) (parseSegment t p s).1 (parseSegment t p s).2 hsA hsclen
      refine ⟨ihA, by omega, ihnlen, by omega, ?_, ?_, ?_, ?_⟩
      · intro j hj
        rw [ihframe j (by omega)]
        exact hsframe j (by omega) (by omega)
      · intro j hjlen
        have h1 := ihfields j (by omega)
        by_cases hjp : j = p
        · subst hjp
          rw [h1.1, h1.2]
          exact ⟨hsseg, hspat⟩
        · rw [h1.1, h1.2, hsframe j hjp hjlen]
          exact ⟨rfl, rfl⟩
      · rw [ihcs]; exact hscs
      · rw [ihpc]; exact hspc

/-- Agreement on every field getChild reads. -/
def sameShape (n n2 : Node) : Prop :=
  n2.segment = n.segment ∧ n2.children = n.children ∧ n2.segChildren = n.segChildren ∧
  n2.optionChildren = n.optionChildren ∧ n2.varyChildren = n.varyChildren

/-- Agreement of two tries up to the endpoint and pattern fields. -/
def EqvEP (t t2 : Trie) : Prop :=
  t2.nodes.length = t.nodes.length ∧ (∀ j, sameShape (t.node j) (t2.node j)) ∧
  t2.caseSensitive = t.caseSensitive ∧ t2.pathClean = t.pathClean

/-- childIds is shape-determined. -/
theorem childIds_congr (n n2 : Node) (h : sameShape n n2) : childIds n2 = childIds n := by
  obtain ⟨_, h2, h3, h4, h5⟩ := h
  simp [childIds, h2, h3, h4, h5]

/-- The arena invariant transfers across shape agreement. -/
theorem ArenaOK_congr (t t2 : Trie) (hE : EqvEP t t2) (hA : ArenaOK t) : ArenaOK t2 := by
  obtain ⟨hlen, hshape, _, _⟩ := hE
  constructor
  · intro he
    rw [he] at hlen
    simp at hlen
    exact hA.1 (List.length_eq_zero.mp hlen.symm)
  · intro i hi c hc
    rw [hlen] at hi
    rw [childIds_congr _ _ (hshape i)] at hc
    have hb := hA.2 i hi c hc
    exact ⟨hb.1, by rw [hlen]; exact hb.2⟩

/-- getChild only reads shape. -/
theorem getChild_congr (t t2 : Trie) (hE : EqvEP t t2) (p : Nat) (s : Str) :
    getChild t2 p s = getChild t p s := by
  obtain ⟨hlen, hshape, _, _⟩ := hE
  have h1 : lookupA (t2.node p).children (normKey s) =
      lookupA (t.node p).children (normKey s) := by rw [(hshape p).2.1]
  have h2 : (t2.node p).segChildren.find? (fun c => (t2.node c).segment = normKey s) =
      (t.node p).segChildren.find? (fun c => (t.node c).segment = normKey s) := by
    rw [(hshape p).2.2.1]
    exact find_congr_mem _ _ _ (fun c _ => by rw [(hshape c).1])
  have h3 : (t2.node p).optionChildren.find? (fun c => (t2.node c).segment = normKey s) =
      (t.node p).optionChildren.find? (fun c => (t.node c).segment = normKey s) := by
    rw [(hshape p).2.2.2.1]
    exact find_congr_mem _ _ _ (fun c _ => by rw [(hshape c).1])
  have h4 : (t2.node p).varyChildren.find? (fun c => (t2.node c).segment = normKey s) =
      (t.node p).varyChildren.find? (fun c => (t.node c).segment = normKey s) := by
    rw [(hshape p).2.2.2.2]
    exact find_congr_mem _ _ _ (fun c _ => by rw [(hshape c).1])
  simp only [getChild]
  rw [h1, h2, h3, h4]

/-- getChild at a parent is stable across a walk that only modifies deeper
slots (and keeps all segment texts). -/
theorem getChild_stable (ta t1 : Trie) (p : Nat) (s : Str)
    (hnode : t1.node p = ta.node p)
    (hseg : ∀ j, j < ta.nodes.length → (t1.node j).segment = (ta.node j).segment)
    (hbound : ∀ c ∈ childIds (ta.node p), c < ta.nodes.length) :
    getChild t1 p s = getChild ta p s := by
  have h2 : (ta.node p).segChildren.find? (fun c => (t1.node c).segment = normKey s) =
      (ta.node p).segChildren.find? (fun c => (ta.node c).segment = normKey s) :=
    find_congr_mem _ _ _
      (fun c hc => by rw [hseg c (hbound c (mem_childIds_of_seg _ _ hc))])
  have h3 : (ta.node p).optionChildren.find? (fun c => (t1.node c).segment = normKey s) =
      (ta.node p).optionChildren.find? (fun c => (ta.node c).segment = normKey s) :=
    find_congr_mem _ _ _
      (fun c hc => by rw [hseg c (hbound c (mem_childIds_of_opt _ _ hc))])
  have h4 : (ta.node p).varyChildren.find? (fun c => (t1.node c).segment = normKey s) =
      (ta.node p).varyChildren.find? (fun c => (ta.node c).segment = normKey s) :=
    find_congr_mem _ _ _
      (fun c hc => by rw [hseg c (hbound c (mem_childIds_of_vary _ _ hc))])
  simp only [getChild]
  rw [hnode, h2, h3, h4]

/-- Setting a node to a same-shape replacement is an EqvEP step. -/
theorem EqvEP_setNode (t : Trie) (c : Nat) (nn : Node)
    (hshape : sameShape (t.node c) nn) : EqvEP t (t.setNode c nn) := by
  refine ⟨setNode_len t c nn, ?_, (setNode_flags _ _ _).1, (setNode_flags _ _ _).2⟩
  intro j
  by_cases hjc : j = c
  · subst hjc
    by_cases hlt : j < t.nodes.length
    · rw [node_set_self _ _ _ hlt]
      exact hshape
    · have : (t.setNode j nn).node j = t.node j := by
        simp only [Trie.node, Trie.setNode]
        rw [List.set_eq_of_length_le (by omega)]
      rw [this]
      exact ⟨rfl, rfl, rfl, rfl, rfl⟩
  · rw [node_set_ne _ _ _ _ hjc]
    exact ⟨rfl, rfl, rfl, rfl, rfl⟩

/-- A second insertion walk over an EqvEP-variant of the first walk's
result reuses existing children all the way and lands on the same node. -/
theorem parsePattern_again (segs : List Str) (hne : segs ≠ []) :
    ∀ (t : Trie) (p : Nat) (tb : Trie), ArenaOK t → p < t.nodes.length →
      EqvEP (parsePattern t p segs).1 tb →
      (parsePattern tb p segs).2 = (parsePattern t p segs).2 := by
  induction segs with
  | nil => exact absurd rfl hne
  | cons s rest ih =>
    intro t p tb hA hp hE
    obtain ⟨hsA, hslt, hsclen, hsmono, hsframe, hsseg, hspat, hscs, hspc, hsgc⟩ :=
      parseSegment_spec t p s hA hp
    cases rest with
    | nil =>
      simp only [parsePattern] at hE ⊢
      have hshape : sameShape ((parseSegment t p s).1.node (parseSegment t p s).2)
          { (parseSegment t p s).1.node (parseSegment t p s).2 with endpoint := true } :=
        ⟨rfl, rfl, rfl, rfl, rfl⟩
      have hE1 := EqvEP_setNode (parseSegment t p s).1 (parseSegment t p s).2 _ hshape
      have hgcb : getChild tb p s = some (parseSegment t p s).2 :=
        ((getChild_congr _ tb hE p s).trans
          ((getChild_congr _ _ hE1 p s).trans hsgc))
      have hps : parseSegment tb p s = (tb, (parseSegment t p s).2) := by
        simp only [parseSegment, hgcb]
      rw [hps]
    | cons r rest2 =>
      simp only [parsePattern] at hE ⊢
      obtain ⟨hpA, hplt, hpn, hpmono, hpframe, hpseg, hpcs, hppc⟩ :=
        parsePattern_spec (r :: rest2) (by simp) (parseSegment t p s).1
          (parseSegment t p s).2 hsA hsclen
      have hgc1 : getChild (parsePattern (parseSegment t p s).1 (parseSegment t p s).2
          (r :: rest2)).1 p s = some (parseSegment t p s).2 := by
        rw [getChild_stable _ _ p s (hpframe p hslt)
          (fun j hj => (hpseg j hj).1)
          (fun c hc => (hsA.2 p (Nat.lt_of_lt_of_le hp hsmono) c hc).2)]
        exact hsgc
      have hgcb : getChild tb p s = some (parseSegment t p s).2 :=
        (getChild_congr _ tb hE p s).trans hgc1
      have hps : parseSegment tb p s = (tb, (parseSegment t p s).2) := by
        simp only [parseSegment, hgcb]
      rw [hps]
      exact ih (by simp) (parseSegment t p s).1 (parseSegment t p s).2 tb hsA hsclen hE

/-- strings.Split on the separator never returns an empty list. -/
theorem splitSlash_ne_nil (s : Str) : splitSlash s ≠ [] := by
  cases s with
  | nil => simp [splitSlash]
  | cons c rest =>
    simp only [splitSlash]
    cases h : splitSlash rest with
    | nil => simp
    | cons a tl =>
      split
      · split <;> simp
      · simp

/-- C9: Parse is idempotent: on a well-formed arena, registering the same
pattern a second time returns the same node index and leaves that node's
stored pattern string untouched (it is set only by the first registration);
concretely, re-registering /a/b on the two-flag test trie returns node 2
again and leaves the whole trie unchanged. -/
theorem c9_parse_idempotent :
    (∀ (t : Trie) (pat : Str) (t1 : Trie) (n1 : Nat) (t2 : Trie) (n2 : Nat),
      ArenaOK t → t.Parse pat = ParseOut.ok t1 n1 →
      t1.Parse pat = ParseOut.ok t2 n2 →
      n2 = n1 ∧ (t2.node n1).pattern = (t1.node n1).pattern) ∧
    regId testTrie "/a/b" = 2 ∧ regId (reg testTrie "/a/b") "/a/b" = 2 ∧
    reg (reg testTrie "/a/b") "/a/b" = reg testTrie "/a/b" := by
  refine ⟨?_, by decide, by decide, by decide⟩
  intro t pat t1 n1 t2 n2 hA h1 h2
  rw [Trie.Parse] at h1 h2
  by_cases hds : hasDSlash pat = true
  · rw [if_pos hds] at h1
    exact absurd h1 (by simp)
  simp only [if_neg hds] at h1 h2
  set sg := splitSlash (if t.caseSensitive then trimLeadSlash pat
    else (trimLeadSlash pat).map Char.toLower) with hsg
  have hne : sg ≠ [] := by rw [hsg]; exact splitSlash_ne_nil _
  have h0 : 0 < t.nodes.length := List.length_pos.mpr hA.1
  obtain ⟨h1A, h1lt, h1n, h1mono, h1frame, h1segpat, h1cs, h1pc⟩ :=
    parsePattern_spec sg hne t 0 hA h0
  have hE : EqvEP (parsePattern t 0 sg).1 t1 ∧
      ((t1.node (parsePattern t 0 sg).2).pattern = [] → pat = []) ∧
      n1 = (parsePattern t 0 sg).2 := by
    split at h1
    · rename_i hpe
      injection h1 with ht hn
      refine ⟨?_, ?_, hn.symm⟩
      · rw [← ht]
        exact EqvEP_setNode _ _ _ ⟨rfl, rfl, rfl, rfl, rfl⟩
      · intro hq
        rw [← ht, node_set_self _ _ _ h1n] at hq
        simpa using hq
    · rename_i hpe
      injection h1 with ht hn
      refine ⟨?_, ?_, hn.symm⟩
      · rw [← ht]
        exact ⟨rfl, fun j => ⟨rfl, rfl, rfl, rfl, rfl⟩, rfl, rfl⟩
      · intro hq
        rw [← ht] at hq
        exact absurd hq hpe
  obtain ⟨hE, hqpat, hn1⟩ := hE
  have hcs1 : t1.caseSensitive = t.caseSensitive := hE.2.2.1.trans h1cs
  rw [hcs1, ← hsg] at h2
  have hA1 : ArenaOK t1 := ArenaOK_congr _ _ hE h1A
  have h01 : 0 < t1.nodes.length := by rw [hE.1]; omega
  obtain ⟨h2A, h2lt, h2n, h2mono, h2frame, h2segpat, h2cs, h2pc⟩ :=
    parsePattern_spec sg hne t1 0 hA1 h01
  have hag : (parsePattern t1 0 sg).2 = (parsePattern t 0 sg).2 :=
    parsePattern_again sg hne t 0 t1 hA h0 hE
  have hmlt : (parsePattern t 0 sg).2 < t1.nodes.length := by rw [hE.1]; exact h1n
  have hq2 : ((parsePattern t1 0 sg).1.node (parsePattern t 0 sg).2).pattern =
      (t1.node (parsePattern t 0 sg).2).pattern :=
    (h2segpat _ hmlt).2
  rw [hag] at h2
  split at h2
  · rename_i hpe2
    injection h2 with ht hn
    rw [hq2] at hpe2
    constructor
    · omega
    · rw [hn1, ← ht, node_set_self _ _ _ (by rw [← hag]; exact h2n), hpe2]
      exact hqpat hpe2
  · injection h2 with ht hn
    constructor
    · omega
    · rw [hn1, ← ht]
      exact hq2

/-- C9 witness: the universal idempotence conjunct applied to the concrete
double registration of /a/b on the test trie. -/
theorem c9_parse_idempotent_witness :
    2 = 2 ∧ ((reg (reg testTrie "/a/b") "/a/b").node 2).pattern =
      ((reg testTrie "/a/b").node 2).pattern :=
  c9_parse_idempotent.1 testTrie (str "/a/b") (reg testTrie "/a/b") 2
    (reg (reg testTrie "/a/b") "/a/b") 2 (by constructor <;> decide) (by decide) (by decide)

/-- A doubled-colon replacement always leaves a colon in the output. -/
theorem replaceDColon_colon (s : Str) (h : hasDColon s = true) :
    ':' ∈ replaceDColon s := by
  induction s using replaceDColon.induct with
  | case1 c c2 rest hc ih =>
    rw [replaceDColon, if_pos hc]
    exact List.mem_cons_self _ _
  | case2 c c2 rest hc ih =>
    rw [replaceDColon, if_neg hc]
    have h2 : hasDColon (c2 :: rest) = true := by
      cases hb : hasDColon (c2 :: rest)
      · rw [hasDColon, hb, Bool.or_false] at h
        obtain ⟨ha2, hb2⟩ := (Bool.and_eq_true _ _).mp h
        exact absurd ⟨by simpa using ha2, by simpa using hb2⟩ hc
      · rfl
    exact List.mem_cons_of_mem _ (ih h2)
  | case3 s hs =>
    cases s with
    | nil => simp [hasDColon] at h
    | cons c rest =>
      cases rest with
      | nil => simp [hasDColon] at h
      | cons c2 r2 => exact absurd rfl (hs c c2 r2)

/-- The only key that normalises to the extension-wildcard text is that
text itself. -/
theorem normKey_ext_wild (s : Str) (h : normKey s = str "*.*") : s = str "*.*" := by
  by_cases hd : hasDColon s = true
  · have hc := replaceDColon_colon s hd
    rw [normKey, if_pos hd] at h
    rw [h] at hc
    exact absurd hc (by decide)
  · rw [normKey, if_neg hd] at h
    exact h

/-- MatchString of the extension wildcard is the first-dot search. -/
theorem reMatch_ext (s : Str) : reMatch extWildSrc s = (extWildFind s).isSome := by
  rw [reMatch, if_neg (by decide), if_pos rfl]

/-- FindStringSubmatch of the extension wildcard. -/
theorem reFind_ext (s : Str) :
    reFind extWildSrc s = (extWildFind s).map (fun r => [r.1, r.2.1, r.2.2]) := by
  rw [reFind, if_neg (by decide), if_pos rfl]

/-- takeWhile can only get longer when the list is extended on the right. -/
theorem takeWhile_length_mono (p : Char → Bool) (l u : Str) :
    (l.takeWhile p).length ≤ ((l ++ u).takeWhile p).length := by
  induction l with
  | nil => simp
  | cons c rest ih =>
    rw [List.cons_append, List.takeWhile_cons, List.takeWhile_cons]
    cases hp : p c
    · simp
    · simpa using ih

/-- getD inside the left part of an append. -/
theorem getD_append_left (l u : Str) (k : Nat) (d : Char) (h : k < l.length) :
    (l ++ u).getD k d = l.getD k d := by
  simp only [List.getD]
  rw [List.get?_append h]

/-- A getD that avoids the default addresses an in-range position. -/
theorem getD_lt_of_ne (l : Str) (k : Nat) (d : Char) (h : l.getD k d ≠ d) :
    k < l.length := by
  by_contra hk
  rw [List.getD_eq_default _ _ (by omega)] at h
  exact h rfl

/-- What a successful first-group-length search guarantees. -/
theorem extWildK_some (l : Str) : ∀ (m k : Nat), extWildK l m = some k →
    1 ≤ k ∧ k ≤ m ∧ l.getD k '\n' ≠ '\n' ∧ l.getD (k + 1) '\n' ≠ '\n' := by
  intro m
  induction m with
  | zero => intro k h; exact absurd h (by simp [extWildK])
  | succ m ih =>
    intro k h
    simp only [extWildK] at h
    split at h
    · rename_i hc
      injection h with h1
      subst h1
      exact ⟨by omega, by omega, hc.1, hc.2⟩
    · obtain ⟨h1, h2, h3, h4⟩ := ih k h
      exact ⟨h1, by omega, h3, h4⟩

/-- The first-group-length search succeeds whenever some admissible
length is within its bound. -/
theorem extWildK_complete (l : Str) (k : Nat) (h1 : 1 ≤ k)
    (h2 : l.getD k '\n' ≠ '\n') (h3 : l.getD (k + 1) '\n' ≠ '\n') :
    ∀ m, k ≤ m → (extWildK l m).isSome = true := by
  intro m
  induction m with
  | zero => intro h; omega
  | succ m ih =>
    intro hkm
    simp only [extWildK]
    split
    · simp
    · rename_i hc
      by_cases hk : k = m + 1
      · subst hk
        exact absurd ⟨h2, h3⟩ hc
      · exact ih (by omega)

/-- An anchored extension-wildcard match survives extending the text to
the right. -/
theorem extWildAt_mono (l u : Str) (h : (extWildAt l).isSome = true) :
    (extWildAt (l ++ u)).isSome = true := by
  simp only [extWildAt] at h ⊢
  cases hk : extWildK l (l.takeWhile (fun c => c ≠ '.')).length with
  | none => rw [hk] at h; simp at h
  | some k =>
    obtain ⟨hk1, hk2, hk3, hk4⟩ := extWildK_some l _ k hk
    have hkl : k < l.length := getD_lt_of_ne l k '\n' hk3
    have hkl2 : k + 1 < l.length := getD_lt_of_ne l (k + 1) '\n' hk4
    have hg1 : (l ++ u).getD k '\n' ≠ '\n' := by
      rw [getD_append_left l u k '\n' hkl]; exact hk3
    have hg2 : (l ++ u).getD (k + 1) '\n' ≠ '\n' := by
      rw [getD_append_left l u (k + 1) '\n' hkl2]; exact hk4
    have hmono := takeWhile_length_mono (fun c => decide (c ≠ '.')) l u
    have hcomp : (extWildK (l ++ u)
        ((l ++ u).takeWhile (fun c => c ≠ '.')).length).isSome = true :=
      extWildK_complete (l ++ u) k hk1 hg1 hg2
        ((l ++ u).takeWhile (fun c => c ≠ '.')).length (le_trans hk2 hmono)
    cases h2 : extWildK (l ++ u) ((l ++ u).takeWhile (fun c => c ≠ '.')).length with
    | none => rw [h2] at hcomp; exact absurd hcomp (by simp)
    | some k2 => simp

/-- A leftmost extension-wildcard match survives extending the text to
the right. -/
theorem extWildFind_mono (l u : Str) (h : (extWildFind l).isSome = true) :
    (extWildFind (l ++ u)).isSome = true := by
  induction l with
  | nil => simp [extWildFind] at h
  | cons c rest ih =>
    rw [List.cons_append]
    simp only [extWildFind] at h ⊢
    by_cases hc : c ≠ '.'
    · rw [if_pos hc] at h ⊢
      cases ha : extWildAt (c :: rest) with
      | some r =>
        have hmm := extWildAt_mono (c :: rest) u (by rw [ha]; rfl)
        rw [List.cons_append] at hmm
        cases ha2 : extWildAt (c :: (rest ++ u)) with
        | none => rw [ha2] at hmm; exact absurd hmm (by simp)
        | some r2 => rfl
      | none =>
        rw [ha] at h
        cases ha2 : extWildAt (c :: (rest ++ u)) with
        | some r2 => rfl
        | none => exact ih h
    · rw [if_neg hc] at h ⊢
      exact ih h

/-- A leftmost extension-wildcard match on a take survives on the full
text. -/
theorem extWildFind_take (R : Str) (m : Nat)
    (h : (extWildFind (R.take m)).isSome = true) :
    (extWildFind R).isSome = true := by
  have h2 := extWildFind_mono (R.take m) (R.drop m) h
  rwa [List.take_append_drop] at h2

/-- Well-shaped wildcard bookkeeping, as Parse maintains it: every
multi-name wildcard node is an extension-wildcard node (the *.* segment,
the :path/:ext names and the ([^.]+).(.+) expression), and the static
child map never stores a wildcard node. -/
def WFTrie (t : Trie) : Prop :=
  ∀ j, j < t.nodes.length →
    ((t.node j).wildcard = true → 2 ≤ (t.node j).name.length →
      (t.node j).name = [str ":path", str ":ext"] ∧
      (t.node j).regex = some extWildSrc ∧ (t.node j).segment = str "*.*") ∧
    ∀ e ∈ (t.node j).children, (t.node e.2).wildcard = false

/-- The well-shapedness facts hold at every index, including the default
node addressed out of range. -/
theorem WF_all (t : Trie) (hWF : WFTrie t) (j : Nat) :
    ((t.node j).wildcard = true → 2 ≤ (t.node j).name.length →
      (t.node j).name = [str ":path", str ":ext"] ∧
      (t.node j).regex = some extWildSrc ∧ (t.node j).segment = str "*.*") ∧
    ∀ e ∈ (t.node j).children, (t.node e.2).wildcard = false := by
  by_cases hj : j < t.nodes.length
  · exact hWF j hj
  · have hd : t.node j = default := by
      simp only [Trie.node]
      exact List.getD_eq_default _ _ (by omega)
    rw [hd]
    constructor
    · intro hw
      exact absurd hw (by decide)
    · intro e he
      exact absurd he (by simp [default, Inhabited.default])

/-- What a successful getChild used: the static map under the normalised
key, or a child whose raw segment text equals that key. -/
theorem getChild_route (t : Trie) (p : Nat) (s : Str) (c : Nat)
    (h : getChild t p s = some c) :
    lookupA (t.node p).children (normKey s) = some c ∨
    (t.node c).segment = normKey s := by
  simp only [getChild] at h
  cases h1 : lookupA (t.node p).children (normKey s) with
  | some c2 =>
    rw [h1] at h
    injection h with h2
    subst h2
    exact Or.inl rfl
  | none =>
    rw [h1] at h
    cases h2 : (t.node p).segChildren.find? (fun c => (t.node c).segment = normKey s) with
    | some c2 =>
      rw [h2] at h
      injection h with h3
      subst h3
      exact Or.inr (by simpa using List.find?_some h2)
    | none =>
      rw [h2] at h
      cases h3 : (t.node p).optionChildren.find? (fun c => (t.node c).segment = normKey s) with
      | some c2 =>
        rw [h3] at h
        injection h with h4
        subst h4
        exact Or.inr (by simpa using List.find?_some h3)
      | none =>
        rw [h3] at h
        exact Or.inr (by simpa using List.find?_some h)

/-- A multi-name wildcard node can only be selected by matchNode when the
extension-wildcard expression finds a match in the probed segment. -/
theorem matchNode_ext_match (t : Trie) (pid : Nat) (seg rest : Str) (c : Nat)
    (hWF : WFTrie t) (hm : matchNode t pid seg rest = some c)
    (hw : (t.node c).wildcard = true) (hn : 2 ≤ (t.node c).name.length) :
    (extWildFind seg).isSome = true := by
  obtain ⟨hname, hregex, hsegm⟩ := (WF_all t hWF c).1 hw hn
  simp only [matchNode] at hm
  cases hgc : getChild t pid seg with
  | some c2 =>
    rw [hgc] at hm
    injection hm with h2
    subst h2
    rcases getChild_route t pid seg c2 hgc with hmap | hseg2
    · exfalso
      simp only [lookupA] at hmap
      cases hf : (t.node pid).children.find? (fun pr => pr.1 = normKey seg) with
      | none => rw [hf] at hmap; exact absurd hmap (by simp)
      | some pr =>
        rw [hf] at hmap
        injection hmap with h3
        have hmem := List.mem_of_find?_eq_some hf
        have hwf2 := (WF_all t hWF pid).2 pr hmem
        have h3b : pr.2 = c2 := h3
        rw [h3b, hw] at hwf2
        exact absurd hwf2 (by decide)
    · have hs : seg = str "*.*" := normKey_ext_wild seg (by rw [← hseg2, hsegm])
      rw [hs]
      decide
  | none =>
    rw [hgc] at hm
    cases h2 : (t.node pid).segChildren.find? (fun cid =>
        let cn := t.node cid
        (!(!rest.isEmpty && cn.children.isEmpty && cn.varyChildren.isEmpty &&
            cn.segChildren.isEmpty && cn.optionChildren.isEmpty)) &&
        (match cn.regex with
         | none => true
         | some r => reMatch r seg)) with
    | some c2 =>
      rw [h2] at hm
      injection hm with h3
      subst h3
      have hp := List.find?_some h2
      obtain ⟨hp1, hp2⟩ := (Bool.and_eq_true _ _).mp hp
      rw [hregex] at hp2
      have hp3 : reMatch extWildSrc seg = true := hp2
      rw [reMatch_ext] at hp3
      exact hp3
    | none =>
      rw [h2] at hm
      have hp := List.find?_some hm
      rw [hregex] at hp
      have hp3 : reMatch extWildSrc seg = true := hp
      rw [reMatch_ext] at hp3
      exact hp3

/-- A successful suffix-extension fallback selected its node through
matchNode on the stripped segment. -/
theorem tryExts_route (t : Trie) (pid : Nat) (seg path : Str) :
    ∀ (exts : List Str) (ext : Str) (n : Nat),
      tryExts t pid seg path exts = some (ext, n) →
      matchNode t pid (trimSuffixF seg ext) path = some n := by
  intro exts
  induction exts with
  | nil => intro ext n h; exact absurd h (by simp [tryExts])
  | cons e rest ih =>
    intro ext n h
    simp only [tryExts] at h
    split at h
    · cases hm : matchNode t pid (trimSuffixF seg e) path with
      | some n2 =>
        rw [hm] at h
        injection h with h2
        injection h2 with h3 h4
        subst h3
        subst h4
        exact hm
      | none =>
        rw [hm] at h
        exact ih ext n h
    · exact ih ext n h

/-- TrimSuffix is a take. -/
theorem trimSuffixF_take (s e : Str) : ∃ m, trimSuffixF s e = s.take m := by
  rw [trimSuffixF]
  split
  · exact ⟨s.length - e.length, rfl⟩
  · exact ⟨s.length, (List.take_length s).symm⟩

/-- The final switch of Match never returns an error. -/
theorem matchFinish_ne_fail (t : Trie) (pid : Nat) (params : List (Str × Str))
    (rpath path : Str) : matchFinish t pid params rpath path ≠ MatchOut.fail := by
  simp only [matchFinish]
  split
  · simp
  · split
    · simp
    · split <;> simp

/-- On a well-shaped trie, one loop step never returns an error verdict,
provided the extension-wildcard expression is known to find a match in
the remaining text whenever the node is a multi-name wildcard. -/
theorem matchStepF_ne_fail (t : Trie) (path : Str) (pend i start nid : Nat)
    (ps : List (Str × Str)) (rp : Str) (hWF : WFTrie t)
    (hext : (t.node nid).wildcard = true → 2 ≤ (t.node nid).name.length →
      (extWildFind ((path.drop start).take (pend - start))).isSome = true) :
    matchStepF t path pend i start nid ps rp ≠ StepOut.ret MatchOut.fail := by
  intro h
  simp only [matchStepF] at h
  cases hnm : (t.node nid).name with
  | nil => rw [hnm] at h; simp at h
  | cons n0 nrest =>
    rw [hnm] at h
    simp only at h
    by_cases hw : (t.node nid).wildcard = true
    · rw [if_pos hw] at h
      cases nrest with
      | nil =>
        rw [if_pos rfl] at h
        cases hsp : splatLoop t nid 0 []
            (splitSlash ((path.drop start).take (pend - start))) with
        | cont c delta sv => rw [hsp] at h; simp at h
        | fin sv =>
          rw [hsp] at h
          simp only at h
          injection h with h2
          exact matchFinish_ne_fail _ _ _ _ _ h2
      | cons n1 nrest2 =>
        rw [if_neg (by simp)] at h
        obtain ⟨hname, hregex, hsegm⟩ :=
          (WF_all t hWF nid).1 hw (by rw [hnm]; simp)
        have hiso := hext hw (by rw [hnm]; simp)
        have heq : n0 :: n1 :: nrest2 = [str ":path", str ":ext"] :=
          hnm.symm.trans hname
        injection heq with ha hb
        injection hb with hb1 hb2
        subst ha
        subst hb1
        subst hb2
        rw [hregex] at h
        simp only at h
        rw [reFind_ext] at h
        cases hf : extWildFind ((path.drop start).take (pend - start)) with
        | none => rw [hf] at hiso; simp at hiso
        | some r =>
          rw [hf] at h
          simp only [Option.map_some'] at h
          rw [if_neg (by simp)] at h
          cases hb : bindNames ps [str ":path", str ":ext"]
              ([r.1, r.2.1, r.2.2].drop 1) with
          | some ps2 =>
            rw [hb] at h
            injection h with h2
            exact matchFinish_ne_fail _ _ _ _ _ h2
          | none => rw [hb] at h; simp at h
    · rw [if_neg hw] at h
      cases hr : (t.node nid).regex with
      | none => rw [hr] at h; simp at h
      | some r =>
        rw [hr] at h
        simp only at h
        cases hf : reFind r ((path.drop start).take (i - start)) with
        | none => rw [hf] at h; simp at h
        | some values =>
          rw [hf] at h
          simp only at h
          cases hb : bindNames ps (n0 :: nrest) (values.drop 1) with
          | some ps2 => rw [hb] at h; simp at h
          | none => rw [hb] at h; simp at h

/-- On a well-shaped trie the matching loop never returns an error. -/
theorem matchLoop_ne_fail (t : Trie) (path : Str) (pend : Nat) (hWF : WFTrie t) :
    ∀ (fuel i start parentId : Nat) (params : List (Str × Str)) (rpath : Str),
      matchLoop t path pend fuel i start parentId params rpath ≠ MatchOut.fail := by
  intro fuel
  induction fuel with
  | zero =>
    intro i start parentId params rpath h
    simp [matchLoop] at h
  | succ fuel ih =>
    intro i start parentId params rpath h
    rw [matchLoop] at h
    by_cases hle : i ≤ pend
    · rw [if_pos hle] at h
      by_cases hskip : i < pend ∧ path.getD i ' ' ≠ '/'
      · rw [if_pos hskip] at h
        exact ih _ _ _ _ _ h
      · rw [if_neg hskip] at h
        simp only at h
        have hext1 : ∀ nid,
            matchNode t parentId ((path.drop start).take (i - start)) (path.drop i) =
              some nid →
            (t.node nid).wildcard = true → 2 ≤ (t.node nid).name.length →
            (extWildFind ((path.drop start).take (pend - start))).isSome = true := by
          intro nid hmn hw hn
          have hsel := matchNode_ext_match t parentId _ _ nid hWF hmn hw hn
          have hseg : (path.drop start).take (i - start) =
              ((path.drop start).take (pend - start)).take (i - start) := by
            rw [List.take_take, Nat.min_eq_left (Nat.sub_le_sub_right hle start)]
          rw [hseg] at hsel
          exact extWildFind_take _ _ hsel
        have hext2 : ∀ (er : Str × Nat),
            tryExts t parentId ((path.drop start).take (i - start)) (path.drop i)
              allowSuffixExt = some er →
            (t.node er.2).wildcard = true → 2 ≤ (t.node er.2).name.length →
            (extWildFind ((path.drop start).take (pend - start))).isSome = true := by
          intro er htr hw hn
          have hmn := tryExts_route t parentId _ _ allowSuffixExt er.1 er.2
            (by rw [htr])
          have hsel := matchNode_ext_match t parentId _ _ er.2 hWF hmn hw hn
          obtain ⟨m, hm⟩ := trimSuffixF_take ((path.drop start).take (i - start)) er.1
          rw [hm] at hsel
          have hseg : (path.drop start).take (i - start) =
              ((path.drop start).take (pend - start)).take (i - start) := by
            rw [List.take_take, Nat.min_eq_left (Nat.sub_le_sub_right hle start)]
          rw [hseg] at hsel
          exact extWildFind_take _ _
            (extWildFind_take (((path.drop start).take (pend - start)).take (i - start)) m hsel)
        by_cases hcond :
            (t.node parentId).endpoint ∧ i = pend ∧ (path.drop start).take (i - start) = []
        · rw [if_pos hcond] at h
          cases hmn : matchNode t parentId ((path.drop start).take (i - start))
              (path.drop i) with
          | some nid =>
            rw [hmn] at h
            simp only at h
            cases hst : matchStepF t path pend i start nid params rpath with
            | next i2 s2 p2 ps2 rp2 =>
              rw [hst] at h
              exact ih _ _ _ _ _ h
            | ret o =>
              rw [hst] at h
              subst h
              exact matchStepF_ne_fail t path pend i start nid params rpath hWF
                (hext1 nid hmn) hst
          | none =>
            rw [hmn] at h
            simp only at h
            by_cases hiend : i = pend
            · rw [if_pos hiend] at h
              cases hte : tryExts t parentId ((path.drop start).take (i - start))
                  (path.drop i) allowSuffixExt with
              | some er =>
                rw [hte] at h
                simp only at h
                cases hst : matchStepF t path pend i start er.2
                    (setParam params (str ":ext") (er.1.drop 1))
                    (path.take (pend - 1)) with
                | next i2 s2 p2 ps2 rp2 =>
                  rw [hst] at h
                  exact ih _ _ _ _ _ h
                | ret o =>
                  rw [hst] at h
                  subst h
                  exact matchStepF_ne_fail t path pend i start er.2
                    (setParam params (str ":ext") (er.1.drop 1))
                    (path.take (pend - 1)) hWF (hext2 er hte) hst
              | none =>
                rw [hte] at h
                simp only at h
                exact absurd h (by simp)
            · rw [if_neg hiend] at h
              exact absurd h (by simp)
        · rw [if_neg hcond] at h
          cases hmn : matchNode t parentId ((path.drop start).take (i - start))
              (path.drop i) with
          | some nid =>
            rw [hmn] at h
            simp only at h
            cases hst : matchStepF t path pend i start nid params rpath with
            | next i2 s2 p2 ps2 rp2 =>
              rw [hst] at h
              exact ih _ _ _ _ _ h
            | ret o =>
              rw [hst] at h
              subst h
              exact matchStepF_ne_fail t path pend i start nid params rpath hWF
                (hext1 nid hmn) hst
          | none =>
            rw [hmn] at h
            simp only at h
            by_cases hiend : i = pend
            · rw [if_pos hiend] at h
              cases hte : tryExts t parentId ((path.drop start).take (i - start))
                  (path.drop i) allowSuffixExt with
              | some er =>
                rw [hte] at h
                simp only at h
                cases hst : matchStepF t path pend i start er.2
                    (setParam params (str ":ext") (er.1.drop 1)) rpath with
                | next i2 s2 p2 ps2 rp2 =>
                  rw [hst] at h
                  exact ih _ _ _ _ _ h
                | ret o =>
                  rw [hst] at h
                  subst h
                  exact matchStepF_ne_fail t path pend i start er.2
                    (setParam params (str ":ext") (er.1.drop 1)) rpath hWF
                    (hext2 er hte) hst
              | none =>
                rw [hte] at h
                simp only at h
                exact absurd h (by simp)
            · rw [if_neg hiend] at h
              exact absurd h (by simp)
    · rw [if_neg hle] at h
      exact matchFinish_ne_fail t parentId params rpath path h

/-- C7 amended: Match returns an error, and no node, for every path that
is empty or does not begin with the separator; and on every well-shaped
trie (multi-name wildcard nodes are the *.* nodes Parse creates, and the
static child map holds no wildcard node) a well-formed path NEVER yields
an error, so the in-loop error return for a wildcard submatch mismatch is
unreachable; failure to match is normally the non-error nil-node outcome,
as /zzz against a /abc/:id trie shows — but not always: instead of the
claimed nil-node non-error result, Match can panic on a well-formed
non-matching path (see the counterexample), so errors do not separate
malformed input from no-match outcomes in the claimed way. -/
theorem c7_error_discipline :
    (∀ (t : Trie) (path : Str), (path = [] ∨ path.head? ≠ some '/') →
      t.Match path = MatchOut.fail) ∧
    (∀ (t : Trie) (path : Str), WFTrie t → ¬(path = [] ∨ path.head? ≠ some '/') →
      t.Match path ≠ MatchOut.fail) ∧
    (reg testTrie "/abc/:id").Match (str "/zzz") =
      MatchOut.ok { node := none, params := [], path := [] } := by
  refine ⟨?_, ?_, by decide⟩
  · intro t path hmal
    rw [Trie.Match, if_pos hmal]
  · intro t path hWF hmal h
    rw [Trie.Match, if_neg hmal] at h
    simp only at h
    exact matchLoop_ne_fail t _ _ hWF _ _ _ _ _ _ h

/-- C7 witness: the malformed-path conjunct at a concrete slash-free path
and the never-error conjunct at a concrete well-shaped trie and
non-matching well-formed path. -/
theorem c7_error_discipline_witness :
    testTrie.Match (str "no-slash") = MatchOut.fail ∧
    (reg testTrie "/abc/:id").Match (str "/zzz") ≠ MatchOut.fail :=
  ⟨c7_error_discipline.1 testTrie (str "no-slash") (by decide),
   c7_error_discipline.2.1 (reg testTrie "/abc/:id") (str "/zzz")
     (by
       intro j hj
       rw [show (reg testTrie "/abc/:id").nodes.length = 3 from by decide] at hj
       interval_cases j <;> exact ⟨by decide, by decide⟩) (by decide)⟩
